import Mathlib

/-!
XDP load balancer (`src/42-xdp-loadbalancer/xdp_lb.bpf.c`).

A shallow embedding of the packet path of the XDP load balancer and the
properties of its header walk, address rewrite and checksum code.

Packet memory is a list of octets; `data` is offset `0` and `data_end` is the
length of the list.  Every access goes through a bounds-checked primitive that
yields `none` outside the buffer, so a result `some _` also says that the run
never left the packet.  The byte order of the target is the parameter `be`
(`true` for a big-endian target, `false` for a little-endian one): it decides
what a multi-byte load or store means and what `bpf_htons`, `bpf_ntohs` and
`bpf_htonl` do.  The `bpf_printk` calls of the program have no effect on the
packet or the verdict and are left out.
-/

namespace XdpLb

/-! ## Packet memory -/

/-- One octet of packet memory. -/
abbrev Byte := Fin 256

/-- Truncation of an integer to `unsigned char`. -/
def toByte (v : Nat) : Byte := ⟨v % 256, Nat.mod_lt _ (by decide)⟩

/-- The `n` bytes of `buf` that start at offset `off`. -/
def slice (buf : List Byte) (off n : Nat) : List Byte := (buf.drop off).take n

/-- The buffer `buf` with the bytes `bs` written over offsets
`off .. off + bs.length - 1`. -/
def splice (buf : List Byte) (off : Nat) (bs : List Byte) : List Byte :=
  buf.take off ++ bs ++ buf.drop (off + bs.length)

/-- Bounds-checked read of the `n` bytes at offset `off`. -/
def mem_read (buf : List Byte) (off n : Nat) : Option (List Byte) :=
  if off + n ≤ buf.length then some (slice buf off n) else none

/-- Bounds-checked write of the bytes `bs` at offset `off`. -/
def mem_write (buf : List Byte) (off : Nat) (bs : List Byte) : Option (List Byte) :=
  if off + bs.length ≤ buf.length then some (splice buf off bs) else none

/-- `__builtin_memcpy(dst, src, n)` with the destination in the packet. -/
def memcpy (buf : List Byte) (dst : Nat) (src : List Byte) (n : Nat) : Option (List Byte) :=
  mem_write buf dst (src.take n)

/-- The `n` low-order bytes of `v`, least significant first. -/
def le_bytes : Nat → Nat → List Byte
  | 0, _ => []
  | n + 1, v => toByte v :: le_bytes n (v / 256)

/-- The integer whose little-endian image is `bs`. -/
def le_value : List Byte → Nat
  | [] => 0
  | b :: bs => b.val + 256 * le_value bs

/-- In-memory image of an `n`-byte unsigned integer on the target. -/
def host_bytes (be : Bool) (n v : Nat) : List Byte :=
  if be then (le_bytes n v).reverse else le_bytes n v

/-- Value of an unsigned integer from its in-memory image on the target. -/
def host_value (be : Bool) (bs : List Byte) : Nat :=
  if be then le_value bs.reverse else le_value bs

/-- Load of an `n`-byte unsigned field at `off`. -/
def load (be : Bool) (buf : List Byte) (off n : Nat) : Option Nat :=
  (mem_read buf off n).map (host_value be)

/-- Store of an `n`-byte unsigned field at `off` (the value is truncated to
`n` bytes, as a C assignment does). -/
def store (be : Bool) (buf : List Byte) (off n v : Nat) : Option (List Byte) :=
  mem_write buf off (host_bytes be n v)

/-! ## Byte order helpers (`bpf/bpf_endian.h`) -/

/-- Byte swap of a 16-bit value. -/
def bswap16 (v : Nat) : Nat := (v % 256) * 256 + (v / 256) % 256

/-- Byte swap of a 32-bit value. -/
def bswap32 (v : Nat) : Nat :=
  (v % 256) * 16777216 + (v / 256 % 256) * 65536 + (v / 65536 % 256) * 256 + (v / 16777216) % 256

/-- Host to network order, 16 bit (`bpf_htons`, `__constant_htons`). -/
def bpf_htons (be : Bool) (v : Nat) : Nat := if be then v % 65536 else bswap16 v

/-- Network to host order, 16 bit (`bpf_ntohs`). -/
def bpf_ntohs (be : Bool) (v : Nat) : Nat := if be then v % 65536 else bswap16 v

/-- Host to network order, 32 bit (`bpf_htonl`). -/
def bpf_htonl (be : Bool) (v : Nat) : Nat := if be then v % 4294967296 else bswap32 v

/-! ## Constants and globals of the program -/

/-- XDP verdict: hand the frame to the network stack. -/
def XDP_PASS : Nat := 2
/-- XDP verdict: transmit the frame out of the interface it came in on. -/
def XDP_TX : Nat := 3
/-- Length of a MAC address. -/
def ETH_ALEN : Nat := 6
/-- Ethertype of IPv4. -/
def ETH_P_IP : Nat := 0x0800
/-- IP protocol number of TCP. -/
def IPPROTO_TCP : Nat := 6
/-- The word cap of the TCP checksum loop (line 11). -/
def MAX_TCP_CHECK_WORDS : Nat := 750

/-- Value type of the `backends` map: `struct backend_config`, a `__u32`
address as the program loads it from the map and a six-byte MAC. -/
structure backend_config where
  ip : Nat
  mac : List Byte
  ip_lt : ip < 4294967296
  mac_len : mac.length = 6

/-- Global `client_ip` (line 26). -/
def client_ip (be : Bool) : Nat := bpf_htonl be 0xa000001
/-- Global `client_mac` (line 27). -/
def client_mac : List Byte := [0xDE, 0xAD, 0xBE, 0xEF, 0x0, 0x1]
/-- Global `load_balancer_ip` (line 28). -/
def load_balancer_ip (be : Bool) : Nat := bpf_htonl be 0xa00000a
/-- Global `load_balancer_mac` (line 29). -/
def load_balancer_mac : List Byte := [0xDE, 0xAD, 0xBE, 0xEF, 0x0, 0x10]

/-! ## Checksum routines -/

/-- The 16-bit words of a byte string in the byte order `be`; a trailing odd
byte is padded with a zero byte. -/
def words16 (be : Bool) : List Byte → List Nat
  | [] => []
  | [b] => [host_value be [b, 0]]
  | b0 :: b1 :: rest => host_value be [b0, b1] :: words16 be rest

/-- The loop of `csum_fold_helper` (lines 35-39): `n` iterations left. -/
def csum_fold_loop : Nat → Nat → Nat
  | 0, csum => csum
  | n + 1, csum =>
    csum_fold_loop n
      (if csum >>> 16 ≠ 0 then ((csum &&& 0xffff) + (csum >>> 16)) % 2 ^ 64 else csum)

/-- Function `csum_fold_helper` (lines 31-41): four conditional folds of a
`__u64`, then the complement truncated to `__u16`. -/
def csum_fold_helper (csum : Nat) : Nat :=
  (2 ^ 64 - 1 - csum_fold_loop 4 csum) % 2 ^ 16

/-- Kernel helper `bpf_csum_diff(NULL, 0, to, to_size, seed)`: the partial
Internet checksum of the `to_size` bytes at `to_off`, added to `seed`.  The helper
is kernel code; it is taken as the plain sum of the 16-bit words as the target
loads them.  The kernel's own routine differs from that sum only by folding
carries back in, which changes neither the residue modulo `0xffff` nor whether
the value is zero, and `csum_fold_helper` depends on nothing else. -/
def bpf_csum_diff (be : Bool) (buf : List Byte) (to_off to_size seed : Nat) : Option Nat :=
  (mem_read buf to_off to_size).map fun bs => seed + (words16 be bs).sum

/-- Function `iph_csum` (lines 72-78): clears `iph->check`, sums the
`sizeof(struct iphdr) = 20` bytes at `iph` and folds.  Returns the checksum and
the buffer with the cleared field. -/
def iph_csum (be : Bool) (buf : List Byte) (iph : Nat) : Option (Nat × List Byte) := do
  let buf ← store be buf (iph + 10) 2 0
  let csum ← bpf_csum_diff be buf iph 20 0
  pure (csum_fold_helper csum, buf)

/-- The summation loop of `tcph_csum` (lines 58-63): `n` iterations are
left, `i` is the loop counter and `sum` the `__u32` accumulator. -/
def tcph_csum_loop (be : Bool) (buf : List Byte) (tcph data_end : Nat) :
    Nat → Nat → Nat → Option Nat
  | 0, _, sum => some sum
  | n + 1, i, sum =>
    let ptr := tcph + 2 * i
    if ptr + 2 > data_end then some sum
    else (load be buf ptr 2).bind fun w =>
      tcph_csum_loop be buf tcph data_end n (i + 1) ((sum + w) % 2 ^ 32)

/-- The folding loop of `tcph_csum` (lines 66-67),
`while (sum >> 16) sum = (sum & 0xFFFF) + (sum >> 16);`.  The first argument
bounds the number of iterations; `tcph_fold sum sum` never exhausts it. -/
def tcph_fold : Nat → Nat → Nat
  | 0, sum => sum
  | n + 1, sum =>
    if sum >>> 16 ≠ 0 then tcph_fold n (((sum &&& 0xFFFF) + (sum >>> 16)) % 2 ^ 32) else sum

/-- Function `tcph_csum` (lines 43-70).  Returns the checksum and the buffer
with `tcph->check` cleared. -/
def tcph_csum (be : Bool) (buf : List Byte) (tcph iph data_end : Nat) :
    Option (Nat × List Byte) := do
  let buf ← store be buf (tcph + 16) 2 0
  let saddr ← load be buf (iph + 12) 4
  let daddr ← load be buf (iph + 16) 4
  let sum := 0
  let sum := (sum + ((saddr >>> 16) % 2 ^ 16 + (saddr &&& 0xFFFF) % 2 ^ 16)) % 2 ^ 32
  let sum := (sum + ((daddr >>> 16) % 2 ^ 16 + (daddr &&& 0xFFFF) % 2 ^ 16)) % 2 ^ 32
  let sum := (sum + bpf_htons be IPPROTO_TCP) % 2 ^ 32
  let sum := (sum + bpf_htons be ((data_end - tcph) % 2 ^ 16)) % 2 ^ 32
  let sum ← tcph_csum_loop be buf tcph data_end (MAX_TCP_CHECK_WORDS + 1) 0 sum
  let sum := tcph_fold sum sum
  pure ((2 ^ 32 - 1 - sum) % 2 ^ 16, buf)

/-! ## The XDP program -/

/-- Lines 147-165: the part of `xdp_load_balancer` after the destination has
been rewritten. -/
def rewrite_source (be : Bool) (buf : List Byte) (eth iph tcph data_end : Nat) :
    Option (Nat × List Byte) := do
  let buf ← store be buf (iph + 12) 4 (load_balancer_ip be)
  let buf ← memcpy buf (eth + 6) load_balancer_mac ETH_ALEN
  let (check, buf) ← iph_csum be buf iph
  let buf ← store be buf (iph + 10) 2 check
  let (check, buf) ← tcph_csum be buf tcph iph data_end
  let buf ← store be buf (tcph + 16) 2 check
  pure (XDP_TX, buf)

/-- The local `four_tuple` of lines 119-128 as the bytes handed to the hash:
`src_ip`, `dst_ip`, `src_port`, `dst_port` as the target stores them. -/
def four_tuple (be : Bool) (saddr daddr source dest : Nat) : List Byte :=
  host_bytes be 4 saddr ++ host_bytes be 4 daddr ++
    host_bytes be 2 (bpf_ntohs be source) ++ host_bytes be 2 (bpf_ntohs be dest)

/-- Function `xdp_load_balancer` (lines 80-166).  `xxhash32 data len seed` is the
hash of `xx_hash.h`, `backends key` is `bpf_map_lookup_elem(&backends, &key)`.
The bit-field `iph->ihl` is the low nibble of the first header byte on either
bit-field layout.  The result is the verdict and the packet as the program
leaves it. -/
def xdp_load_balancer (xxhash32 : List Byte → Nat → Nat → Nat) (be : Bool)
    (backends : Nat → Option backend_config) (buf : List Byte) :
    Option (Nat × List Byte) :=
  let data_end := buf.length
  let eth := 0
  if eth + 14 > data_end then some (XDP_PASS, buf) else
  (load be buf (eth + 12) 2).bind fun h_proto =>
  if h_proto ≠ bpf_htons be ETH_P_IP then some (XDP_PASS, buf) else
  let iph := eth + 14
  if iph + 20 > data_end then some (XDP_PASS, buf) else
  (load be buf (iph + 9) 1).bind fun protocol =>
  if protocol ≠ IPPROTO_TCP then some (XDP_PASS, buf) else
  (load be buf iph 1).bind fun vhl =>
  let ihl := vhl % 16
  let tcph := iph + ihl * 4
  if tcph + 20 > data_end then some (XDP_PASS, buf) else
  (load be buf (iph + 12) 4).bind fun saddr =>
  if saddr = client_ip be then
    (load be buf (iph + 16) 4).bind fun daddr =>
    (load be buf tcph 2).bind fun source =>
    (load be buf (tcph + 2) 2).bind fun dest =>
    let key := xxhash32 (four_tuple be saddr daddr source dest) 12 0 % 2
    match backends key with
    | none => some (XDP_PASS, buf)
    | some backend =>
      (store be buf (iph + 16) 4 backend.ip).bind fun buf =>
      (memcpy buf eth backend.mac ETH_ALEN).bind fun buf =>
      rewrite_source be buf eth iph tcph data_end
  else
    (store be buf (iph + 16) 4 (client_ip be)).bind fun buf =>
    (memcpy buf eth client_mac ETH_ALEN).bind fun buf =>
    rewrite_source be buf eth iph tcph data_end

/-! ## Observers used to state the properties -/

/-- Ethertype of the frame (bytes 12-13, network order), `0` when absent. -/
def eth_proto (buf : List Byte) : Nat :=
  (buf.getD 12 0).val * 256 + (buf.getD 13 0).val

/-- Declared IPv4 header length in 32-bit words (low nibble of byte 14). -/
def ip_ihl (buf : List Byte) : Nat := (buf.getD 14 0).val % 16

/-- IPv4 protocol byte (byte 23). -/
def ip_protocol (buf : List Byte) : Nat := (buf.getD 23 0).val

/-- Offset of the TCP header as the program locates it. -/
def tcp_off (buf : List Byte) : Nat := 14 + ip_ihl buf * 4

/-- The frame passes every check of the header walk. -/
def passes_walk (buf : List Byte) : Prop :=
  14 ≤ buf.length ∧ eth_proto buf = 0x0800 ∧ ip_protocol buf = 6 ∧
    tcp_off buf + 20 ≤ buf.length

instance (buf : List Byte) : Decidable (passes_walk buf) := by
  unfold passes_walk; infer_instance

/-! ## Closed forms of the rewrite, used to state and prove the properties -/

/-- Packet after lines 137-138 or 143-144: destination address `dip` and
destination MAC `dmac` written. -/
def dest_rewritten (be : Bool) (buf : List Byte) (dip : Nat) (dmac : List Byte) : List Byte :=
  splice (splice buf 30 (host_bytes be 4 dip)) 0 dmac

/-- Packet after lines 148-150 and the clearing store of `iph_csum`. -/
def ip_cleared (be : Bool) (buf : List Byte) : List Byte :=
  splice (splice (splice buf 26 (host_bytes be 4 (load_balancer_ip be))) 6 load_balancer_mac)
    24 (host_bytes be 2 0)

/-- Value that `iph_csum` returns on that packet. -/
def ip_check (be : Bool) (buf : List Byte) : Nat :=
  csum_fold_helper (0 + (words16 be (slice (ip_cleared be buf) 14 20)).sum)

/-- Packet after line 153. -/
def ip_done (be : Bool) (buf : List Byte) : List Byte :=
  splice (ip_cleared be buf) 24 (host_bytes be 2 (ip_check be buf))

/-- Packet after the clearing store of `tcph_csum`, TCP header at `tcph`. -/
def tcp_cleared (be : Bool) (buf : List Byte) (tcph : Nat) : List Byte :=
  splice (ip_done be buf) (tcph + 16) (host_bytes be 2 0)

/-- Number of 16-bit words the loop of `tcph_csum` adds for a TCP header at
`tcph` in a buffer of `len` bytes. -/
def summed_words (len tcph : Nat) : Nat :=
  min (MAX_TCP_CHECK_WORDS + 1) ((len - tcph) / 2)

/-- The accumulator of `tcph_csum` before the loop (lines 50-54) for the
addresses `saddr`, `daddr` and a distance `seglen` from `tcph` to `data_end`. -/
def tcp_pseudo_sum (be : Bool) (saddr daddr seglen : Nat) : Nat :=
  ((((0 + ((saddr >>> 16) % 2 ^ 16 + (saddr &&& 0xFFFF) % 2 ^ 16)) % 2 ^ 32
    + ((daddr >>> 16) % 2 ^ 16 + (daddr &&& 0xFFFF) % 2 ^ 16)) % 2 ^ 32
    + bpf_htons be IPPROTO_TCP) % 2 ^ 32
    + bpf_htons be (seglen % 2 ^ 16)) % 2 ^ 32

/-- The accumulator of `tcph_csum` after the loop on the packet `buf` (already
cleared). -/
def tcp_acc (be : Bool) (buf : List Byte) (tcph : Nat) : Nat :=
  (tcp_pseudo_sum be (host_value be (slice buf 26 4)) (host_value be (slice buf 30 4))
      (buf.length - tcph)
    + (words16 be (slice buf tcph (2 * summed_words buf.length tcph))).sum) % 2 ^ 32

/-- Value that `tcph_csum` returns. -/
def tcp_check (be : Bool) (buf : List Byte) (tcph : Nat) : Nat :=
  (2 ^ 32 - 1 - tcph_fold (tcp_acc be (tcp_cleared be buf tcph) tcph)
      (tcp_acc be (tcp_cleared be buf tcph) tcph)) % 2 ^ 16

/-- Packet that `rewrite_source` leaves. -/
def tx_result (be : Bool) (buf : List Byte) (tcph : Nat) : List Byte :=
  splice (tcp_cleared be buf tcph) (tcph + 16) (host_bytes be 2 (tcp_check be buf tcph))

/-- The backend slot the program computes for a frame (line 131). -/
def flow_slot (xxhash32 : List Byte → Nat → Nat → Nat) (be : Bool) (buf : List Byte) : Nat :=
  xxhash32 (four_tuple be (host_value be (slice buf 26 4)) (host_value be (slice buf 30 4))
    (host_value be (slice buf (tcp_off buf) 2)) (host_value be (slice buf (tcp_off buf + 2) 2)))
    12 0 % 2


/-! ## Reference checksum (RFC 1071, RFC 791, RFC 793) -/

/-- End-around-carry folding of a sum of 16-bit words, at most `n` steps. -/
def ones_fold_aux : Nat → Nat → Nat
  | 0, x => x
  | n + 1, x => if x < 65536 then x else ones_fold_aux n (x % 65536 + x / 65536)

/-- The 16-bit one's-complement sum that a sum of 16-bit words folds to. -/
def ones_fold (x : Nat) : Nat := ones_fold_aux x x

/-- What a receiver computes over a checksummed byte string: the
one's-complement sum of its 16-bit words in network order.  The string
verifies when this is `0xFFFF`. -/
def inet_residual (bs : List Byte) : Nat := ones_fold (words16 true bs).sum

/-- The IPv4 header of a frame, all `ihl*4` bytes. -/
def ip_header (buf : List Byte) : List Byte := slice buf 14 (ip_ihl buf * 4)

/-- The TCP pseudo-header of a frame followed by the first `n` bytes of the
segment: source address, destination address, zero, protocol 6 and the
16-bit segment length `seglen`. -/
def tcp_checked_bytes (buf : List Byte) (seglen n : Nat) : List Byte :=
  slice buf 26 4 ++ slice buf 30 4 ++ [0, 6, toByte (seglen / 256), toByte seglen] ++
    slice buf (tcp_off buf) n

/-- Length of the TCP segment of a frame: the bytes from the TCP header to
the end of the buffer. -/
def tcp_seg_len (buf : List Byte) : Nat := buf.length - tcp_off buf


/-- The four-tuple of a frame exactly as its bytes appear on the wire: source
address, destination address, source port, destination port. -/
def wire_tuple (buf : List Byte) : List Byte :=
  slice buf 26 4 ++ slice buf 30 4 ++ slice buf (tcp_off buf) 2 ++ slice buf (tcp_off buf + 2) 2

/-- A TCP port of a frame as a number: the two bytes at `off` in network order. -/
def wire_port (buf : List Byte) (off : Nat) : Nat := host_value true (slice buf off 2)

/-- The four-tuple of a frame with the addresses as on the wire and each port
number stored in the byte order of the target. -/
def host_tuple (be : Bool) (buf : List Byte) : List Byte :=
  slice buf 26 4 ++ slice buf 30 4 ++ host_bytes be 2 (wire_port buf (tcp_off buf)) ++
    host_bytes be 2 (wire_port buf (tcp_off buf + 2))


/-! ## Sample frames and configurations -/

/-- A backend at 10.0.0.20 as a little-endian target holds it. -/
def sample_backend : backend_config := ⟨0x1400000a, [2, 0, 0, 0, 0, 0x14], by decide, rfl⟩

/-- A hash that maps every flow to slot 0. -/
def sample_hash : List Byte → Nat → Nat → Nat := fun _ _ _ => 0

/-- A directory with both slots configured. -/
def sample_directory : Nat → Option backend_config := fun _ => some sample_backend

/-- A directory with no slot configured. -/
def empty_directory : Nat → Option backend_config := fun _ => none

/-- A 54-byte SYN from the client 10.0.0.1:51000 to 10.0.0.10:80, `ihl = 5`. -/
def client_frame : List Byte :=
  [0xDE, 0xAD, 0xBE, 0xEF, 0, 0x10, 0xDE, 0xAD, 0xBE, 0xEF, 0, 1, 8, 0,
   0x45, 0, 0, 40, 0, 0, 0, 0, 64, 6, 0, 0, 10, 0, 0, 1, 10, 0, 0, 10,
   0xC7, 0x38, 0, 80, 0, 0, 0, 0, 0, 0, 0, 0, 0x50, 2, 0, 0, 0, 0, 0, 0]

/-- A 54-byte segment from 10.0.0.20:80 to 10.0.0.10:51000, `ihl = 5`. -/
def backend_frame : List Byte :=
  [0xDE, 0xAD, 0xBE, 0xEF, 0, 0x10, 2, 0, 0, 0, 0, 0x14, 8, 0,
   0x45, 0, 0, 40, 0, 0, 0, 0, 64, 6, 0, 0, 10, 0, 0, 20, 10, 0, 0, 10,
   0, 80, 0xC7, 0x38, 0, 0, 0, 0, 0, 0, 0, 0, 0x50, 0x12, 0, 0, 0, 0, 0, 0]

/-- A 60-byte ARP-like frame (ethertype `0x0806`). -/
def arp_frame : List Byte :=
  [0xFF, 0xFF, 0xFF, 0xFF, 0xFF, 0xFF, 0xDE, 0xAD, 0xBE, 0xEF, 0, 1, 8, 6] ++
    List.replicate 46 0


/-- A 58-byte segment from 10.0.0.20 with `ihl = 6`: one word of IPv4 options
(three NOPs and an end-of-list).  Its IPv4 and TCP checksums are valid. -/
def options_frame : List Byte :=
  [0xDE, 0xAD, 0xBE, 0xEF, 0, 0x10, 2, 0, 0, 0, 0, 0x14, 8, 0,
   0x46, 0, 0, 44, 0, 0, 0, 0, 64, 6, 0x63, 0xAE, 10, 0, 0, 20, 10, 0, 0, 10,
   1, 1, 1, 0,
   0, 80, 0xC7, 0x38, 0, 0, 0, 0, 0, 0, 0, 0, 0x50, 0x12, 0, 0, 0xD4, 0x2C, 0, 0]

/-- A 1538-byte frame from 10.0.0.20 whose TCP segment has 1504 bytes; the
last two payload bytes are `0x12 0x34`.  Its checksums are valid. -/
def long_frame : List Byte :=
  [0xDE, 0xAD, 0xBE, 0xEF, 0, 0x10, 2, 0, 0, 0, 0, 0x14, 8, 0,
   0x45, 0, 0x05, 0xF4, 0, 0, 0, 0, 64, 6, 0x60, 0xE7, 10, 0, 0, 20, 10, 0, 0, 10,
   0, 80, 0xC7, 0x38, 0, 0, 0, 0, 0, 0, 0, 0, 0x50, 0x10, 0, 0, 0xBC, 0x2E, 0, 0] ++
   List.replicate 1482 0 ++ [0x12, 0x34]

/-- A 55-byte frame from 10.0.0.20 whose TCP segment has 21 bytes: a header
and the payload byte `0x7F`.  Its checksums are valid. -/
def odd_frame : List Byte :=
  [0xDE, 0xAD, 0xBE, 0xEF, 0, 0x10, 2, 0, 0, 0, 0, 0x14, 8, 0,
   0x45, 0, 0, 41, 0, 0, 0, 0, 64, 6, 0x66, 0xB2, 10, 0, 0, 20, 10, 0, 0, 10,
   0, 80, 0xC7, 0x38, 0, 0, 0, 0, 0, 0, 0, 0, 0x50, 0x18, 0, 0, 0x55, 0x25, 0, 0, 0x7F]

/-- A 36-byte frame from the client address that declares `ihl = 0`. -/
def zero_ihl_frame : List Byte :=
  [0xDE, 0xAD, 0xBE, 0xEF, 0, 0x10, 0xDE, 0xAD, 0xBE, 0xEF, 0, 1, 8, 0,
   0x40, 0, 0, 22, 0, 0, 0, 0, 64, 6, 0, 0, 10, 0, 0, 1, 10, 0, 0, 10, 1, 1]

/-- The frame `zero_ihl_frame` with another two bytes behind the addresses. -/
def zero_ihl_frame2 : List Byte :=
  [0xDE, 0xAD, 0xBE, 0xEF, 0, 0x10, 0xDE, 0xAD, 0xBE, 0xEF, 0, 1, 8, 0,
   0x40, 0, 0, 22, 0, 0, 0, 0, 64, 6, 0, 0, 10, 0, 0, 1, 10, 0, 0, 10, 2, 2]

/-- A hash that returns the ninth byte of its input (the first byte of the
source port field of the tuple). -/
def probe_hash : List Byte → Nat → Nat → Nat := fun data _ _ => (data.getD 8 0).val

/-- A directory in which only slot 1 is configured. -/
def slot1_directory : Nat → Option backend_config :=
  fun key => if key = 1 then some sample_backend else none


/-- A 70-byte frame of the flow of `client_frame` with another source MAC, one
word of IPv4 options (`ihl = 6`), other flags and twelve payload bytes. -/
def client_frame2 : List Byte :=
  [0xDE, 0xAD, 0xBE, 0xEF, 0, 0x10, 0x02, 0x42, 0xAC, 0x11, 0, 9, 8, 0,
   0x46, 0x10, 0, 56, 0x12, 0x34, 0x40, 0, 63, 6, 0, 0, 10, 0, 0, 1, 10, 0, 0, 10,
   1, 1, 1, 0,
   0xC7, 0x38, 0, 80, 0, 0, 0, 1, 0, 0, 0, 2, 0x50, 0x18, 1, 0, 0, 0, 0, 0,
   71, 69, 84, 32, 47, 32, 72, 84, 84, 80, 13, 10]


/-! ## The summation loop with a word count -/

/-- The summation loop of `tcph_csum` (lines 58-63) with the accumulator
replaced by a count of the words it adds: one more for every pass that reaches
`sum += *(__u16 *)ptr`. -/
def tcph_csum_loop_words (be : Bool) (buf : List Byte) (tcph data_end : Nat) :
    Nat → Nat → Nat → Option Nat
  | 0, _, cnt => some cnt
  | n + 1, i, cnt =>
    let ptr := tcph + 2 * i
    if ptr + 2 > data_end then some cnt
    else (load be buf ptr 2).bind fun _ =>
      tcph_csum_loop_words be buf tcph data_end n (i + 1) (cnt + 1)

/-- A 1538-byte frame from 10.0.0.20 whose TCP segment has 1504 bytes, all zero
behind the TCP header except the last two words, `ab cd` at segment offset 1500
and `12 34` at segment offset 1502. -/
def cap_frame : List Byte :=
  [0xDE, 0xAD, 0xBE, 0xEF, 0, 0x10, 2, 0, 0, 0, 0, 0x14, 8, 0,
   0x45, 0, 0x05, 0xF4, 0, 0, 0, 0, 64, 6, 0, 0, 10, 0, 0, 20, 10, 0, 0, 10,
   0, 80, 0xC7, 0x38, 0, 0, 0, 0, 0, 0, 0, 0, 0x50, 0x10, 0, 0, 0, 0, 0, 0] ++
   List.replicate 1480 0 ++ [0xAB, 0xCD, 0x12, 0x34]


/-! ## Packet memory: basic facts -/

theorem length_slice {buf : List Byte} {off n : Nat} (h : off + n ≤ buf.length) :
    (slice buf off n).length = n := by
  simp [slice]; omega

theorem length_splice {buf : List Byte} {off : Nat} {bs : List Byte}
    (h : off + bs.length ≤ buf.length) : (splice buf off bs).length = buf.length := by
  simp [splice]; omega

theorem getElem?_slice (buf : List Byte) (off n j : Nat) :
    (slice buf off n)[j]? = if j < n then buf[off + j]? else none := by
  simp [slice, List.getElem?_take, List.getElem?_drop]

theorem getElem?_splice {buf : List Byte} {off : Nat} {bs : List Byte}
    (h : off + bs.length ≤ buf.length) (j : Nat) :
    (splice buf off bs)[j]? =
      if off ≤ j ∧ j < off + bs.length then bs[j - off]? else buf[j]? := by
  unfold splice
  by_cases h1 : j < off
  · rw [List.append_assoc, List.getElem?_append_left (by simp; omega)]
    rw [if_neg (by omega), List.getElem?_take, if_pos h1]
  · by_cases h2 : j < off + bs.length
    · rw [List.getElem?_append_left (by simp; omega),
        List.getElem?_append_right (by simp; omega), if_pos (by omega)]
      congr 1
      simp; omega
    · rw [List.getElem?_append_right (by simp; omega), if_neg (by omega), List.getElem?_drop]
      congr 1
      simp; omega

theorem slice_splice_same {buf : List Byte} {off : Nat} {bs : List Byte}
    (h : off + bs.length ≤ buf.length) : slice (splice buf off bs) off bs.length = bs := by
  apply List.ext_getElem?
  intro j
  rw [getElem?_slice, getElem?_splice h]
  by_cases hj : j < bs.length
  · rw [if_pos hj, if_pos (by omega)]; congr 1; omega
  · rw [if_neg hj, List.getElem?_eq_none (by omega)]

theorem slice_splice_disjoint {buf : List Byte} {off : Nat} {bs : List Byte}
    (h : off + bs.length ≤ buf.length) {o n : Nat} (hd : o + n ≤ off ∨ off + bs.length ≤ o) :
    slice (splice buf off bs) o n = slice buf o n := by
  apply List.ext_getElem?
  intro j
  rw [getElem?_slice, getElem?_slice, getElem?_splice h]
  by_cases hj : j < n
  · rw [if_pos hj, if_pos hj, if_neg (by omega)]
  · rw [if_neg hj, if_neg hj]

theorem mem_read_eq {buf : List Byte} {off n : Nat} (h : off + n ≤ buf.length) :
    mem_read buf off n = some (slice buf off n) := by
  simp [mem_read, h]

theorem mem_write_eq {buf : List Byte} {off : Nat} {bs : List Byte}
    (h : off + bs.length ≤ buf.length) : mem_write buf off bs = some (splice buf off bs) := by
  simp [mem_write, h]

theorem memcpy_eq {buf : List Byte} {dst : Nat} {src : List Byte} (hs : src.length = 6)
    (h : dst + 6 ≤ buf.length) : memcpy buf dst src ETH_ALEN = some (splice buf dst src) := by
  unfold memcpy ETH_ALEN
  rw [List.take_of_length_le (by omega)]
  exact mem_write_eq (by omega)

theorem length_le_bytes (n v : Nat) : (le_bytes n v).length = n := by
  induction n generalizing v with
  | zero => rfl
  | succ n ih => simp [le_bytes, ih]

theorem length_host_bytes (be : Bool) (n v : Nat) : (host_bytes be n v).length = n := by
  cases be <;> simp [host_bytes, length_le_bytes]

theorem load_eq {be : Bool} {buf : List Byte} {off n : Nat} (h : off + n ≤ buf.length) :
    load be buf off n = some (host_value be (slice buf off n)) := by
  simp [load, mem_read_eq h]

theorem store_eq {be : Bool} {buf : List Byte} {off n : Nat} (v : Nat)
    (h : off + n ≤ buf.length) :
    store be buf off n v = some (splice buf off (host_bytes be n v)) := by
  unfold store
  rw [mem_write_eq (by rw [length_host_bytes]; exact h)]

theorem slice_one {buf : List Byte} {off : Nat} (h : off + 1 ≤ buf.length) :
    slice buf off 1 = [buf.getD off 0] := by
  apply List.ext_getElem?
  intro j
  rw [getElem?_slice]
  rcases j with _ | j
  · simp [List.getD_eq_getElem?_getD]
    rw [List.getElem?_eq_getElem (by omega)]; simp
  · simp

theorem slice_succ {buf : List Byte} {off n : Nat} (h : off + (n + 1) ≤ buf.length) :
    slice buf off (n + 1) = buf.getD off 0 :: slice buf (off + 1) n := by
  apply List.ext_getElem?
  intro j
  rcases j with _ | j
  · rw [getElem?_slice]
    simp [List.getD_eq_getElem?_getD]
    rw [List.getElem?_eq_getElem (by omega)]; simp
  · rw [getElem?_slice, List.getElem?_cons_succ, getElem?_slice]
    by_cases hj : j < n
    · rw [if_pos hj, if_pos (by omega)]; congr 1; omega
    · rw [if_neg hj, if_neg (by omega)]

theorem slice_zero (buf : List Byte) (off : Nat) : slice buf off 0 = [] := by
  simp [slice]


/-! ## The checksum loop and the straight-line code -/

theorem host_value_one (be : Bool) (b : Byte) : host_value be [b] = b.val := by
  cases be <;> simp [host_value, le_value]

theorem slice_two {buf : List Byte} {off : Nat} (h : off + 2 ≤ buf.length) :
    slice buf off 2 = [buf.getD off 0, buf.getD (off + 1) 0] := by
  rw [slice_succ h, slice_one (by omega)]

theorem tcph_csum_loop_eq (be : Bool) (buf : List Byte) (tcph : Nat) (n : Nat) :
    ∀ (i sum : Nat), sum < 2 ^ 32 →
      tcph_csum_loop be buf tcph buf.length n i sum =
        some ((sum + (words16 be (slice buf (tcph + 2 * i)
          (2 * min n ((buf.length - (tcph + 2 * i)) / 2)))).sum) % 2 ^ 32) := by
  induction n with
  | zero =>
    intro i sum hs
    simp [tcph_csum_loop, slice_zero, words16]
    omega
  | succ n ih =>
    intro i sum hs
    unfold tcph_csum_loop
    by_cases hb : tcph + 2 * i + 2 > buf.length
    · have h0 : (buf.length - (tcph + 2 * i)) / 2 = 0 := by omega
      simp only [hb, if_true, h0, Nat.min_zero, Nat.mul_zero, slice_zero, words16,
        List.sum_nil, Nat.add_zero]
      congr 1; omega
    · have hle : tcph + 2 * i + 2 ≤ buf.length := by omega
      simp only [hb, if_false]
      rw [load_eq hle, Option.some_bind, ih (i + 1) _ (Nat.mod_lt _ (by norm_num))]
      have hk : 2 * min (n + 1) ((buf.length - (tcph + 2 * i)) / 2)
          = 2 * min n ((buf.length - (tcph + 2 * (i + 1))) / 2) + 1 + 1 := by omega
      have hlen : tcph + 2 * i + (2 * min n ((buf.length - (tcph + 2 * (i + 1))) / 2) + 1 + 1)
          ≤ buf.length := by omega
      rw [slice_two hle, hk, slice_succ hlen, slice_succ (by omega)]
      have ho : tcph + 2 * i + 1 + 1 = tcph + 2 * (i + 1) := by omega
      rw [ho]
      simp only [words16, List.sum_cons]
      congr 1
      omega


theorem length_ip_cleared (be : Bool) {buf : List Byte} (h : 34 ≤ buf.length) :
    (ip_cleared be buf).length = buf.length := by
  unfold ip_cleared
  have h1 : (splice buf 26 (host_bytes be 4 (load_balancer_ip be))).length = buf.length :=
    length_splice (by rw [length_host_bytes]; omega)
  have h2 : (splice (splice buf 26 (host_bytes be 4 (load_balancer_ip be))) 6
      load_balancer_mac).length = buf.length := by
    rw [length_splice (by rw [h1]; simp [load_balancer_mac]; omega), h1]
  rw [length_splice (by rw [h2, length_host_bytes]; omega), h2]

theorem length_ip_done (be : Bool) {buf : List Byte} (h : 34 ≤ buf.length) :
    (ip_done be buf).length = buf.length := by
  unfold ip_done
  rw [length_splice (by rw [length_ip_cleared be h, length_host_bytes]; omega),
    length_ip_cleared be h]

theorem length_tcp_cleared (be : Bool) {buf : List Byte} {tcph : Nat} (h : 34 ≤ buf.length)
    (ht : tcph + 20 ≤ buf.length) : (tcp_cleared be buf tcph).length = buf.length := by
  unfold tcp_cleared
  rw [length_splice (by rw [length_ip_done be h, length_host_bytes]; omega), length_ip_done be h]

theorem length_tx_result (be : Bool) (buf : List Byte) (tcph : Nat) (h : 34 ≤ buf.length)
    (ht : tcph + 20 ≤ buf.length) : (tx_result be buf tcph).length = buf.length := by
  unfold tx_result
  rw [length_splice (by rw [length_tcp_cleared be h ht, length_host_bytes]; omega),
    length_tcp_cleared be h ht]

theorem length_dest_rewritten (be : Bool) (buf : List Byte) (dip : Nat) {dmac : List Byte}
    (h : 34 ≤ buf.length) (hm : dmac.length = 6) :
    (dest_rewritten be buf dip dmac).length = buf.length := by
  unfold dest_rewritten
  have h1 : (splice buf 30 (host_bytes be 4 dip)).length = buf.length :=
    length_splice (by rw [length_host_bytes]; omega)
  rw [length_splice (by rw [h1, hm]; omega), h1]

theorem iph_csum_eq (be : Bool) {buf : List Byte} (h : 34 ≤ buf.length) :
    iph_csum be buf 14 =
      some (csum_fold_helper
          (0 + (words16 be (slice (splice buf 24 (host_bytes be 2 0)) 14 20)).sum),
        splice buf 24 (host_bytes be 2 0)) := by
  have hl : (splice buf 24 (host_bytes be 2 0)).length = buf.length :=
    length_splice (by rw [length_host_bytes]; omega)
  unfold iph_csum bpf_csum_diff
  simp only [Nat.reduceAdd]
  rw [store_eq 0 (by omega)]
  simp only [Option.bind_eq_bind, Option.some_bind]
  rw [mem_read_eq (by omega)]
  rfl

theorem tcph_csum_eq (be : Bool) {buf : List Byte} {tcph data_end : Nat}
    (hd : data_end = buf.length) (h : 34 ≤ buf.length) (ht : tcph + 20 ≤ buf.length) :
    tcph_csum be buf tcph 14 data_end =
      some ((2 ^ 32 - 1 - tcph_fold (tcp_acc be (splice buf (tcph + 16) (host_bytes be 2 0)) tcph)
          (tcp_acc be (splice buf (tcph + 16) (host_bytes be 2 0)) tcph)) % 2 ^ 16,
        splice buf (tcph + 16) (host_bytes be 2 0)) := by
  have hl : (splice buf (tcph + 16) (host_bytes be 2 0)).length = buf.length :=
    length_splice (by rw [length_host_bytes]; omega)
  unfold tcph_csum
  simp only [Nat.reduceAdd]
  rw [store_eq 0 (by omega)]
  simp only [Option.bind_eq_bind, Option.some_bind]
  rw [load_eq (by omega), load_eq (by omega)]
  simp only [Option.some_bind]
  have hd2 : data_end = (splice buf (tcph + 16) (host_bytes be 2 0)).length := by omega
  rw [hd2, tcph_csum_loop_eq be _ tcph _ 0 _ (Nat.mod_lt _ (by norm_num))]
  simp only [Option.some_bind]
  rfl

theorem rewrite_source_eq (be : Bool) (buf : List Byte) (tcph : Nat)
    (h : 34 ≤ buf.length) (ht : tcph + 20 ≤ buf.length) :
    rewrite_source be buf 0 14 tcph buf.length = some (XDP_TX, tx_result be buf tcph) := by
  have h1 : (splice buf 26 (host_bytes be 4 (load_balancer_ip be))).length = buf.length :=
    length_splice (by rw [length_host_bytes]; omega)
  have h2 : (splice (splice buf 26 (host_bytes be 4 (load_balancer_ip be))) 6
      load_balancer_mac).length = buf.length := by
    rw [length_splice (by rw [h1]; simp [load_balancer_mac]; omega), h1]
  have h3 := length_ip_cleared be h
  have h4 := length_ip_done be h
  unfold rewrite_source
  simp only [Nat.reduceAdd, Nat.zero_add]
  rw [store_eq _ (by omega)]
  simp only [Option.bind_eq_bind, Option.some_bind, Nat.zero_add]
  rw [memcpy_eq (rfl : load_balancer_mac.length = 6) (by omega)]
  simp only [Option.some_bind]
  rw [iph_csum_eq be (by omega)]
  simp only [Option.some_bind]
  rw [store_eq _ (by unfold ip_cleared at h3; omega)]
  simp only [Option.some_bind]
  have e1 : splice (splice (splice (splice buf 26 (host_bytes be 4 (load_balancer_ip be))) 6
      load_balancer_mac) 24 (host_bytes be 2 0)) 24 (host_bytes be 2
        (csum_fold_helper (0 + (words16 be (slice (splice (splice (splice buf 26
          (host_bytes be 4 (load_balancer_ip be))) 6 load_balancer_mac) 24
            (host_bytes be 2 0)) 14 20)).sum))) = ip_done be buf := rfl
  rw [e1, tcph_csum_eq be (by omega) (by omega) (by omega)]
  simp only [Option.some_bind]
  rw [store_eq _ (by rw [length_splice (by rw [length_host_bytes]; omega)]; omega)]
  rfl


/-! ## The program as a case distinction -/

theorem host16_ne_htons (be : Bool) (x y : Byte) :
    host_value be [x, y] ≠ bpf_htons be ETH_P_IP ↔ x.val * 256 + y.val ≠ 0x0800 := by
  cases be <;> simp [host_value, le_value, bpf_htons, bswap16, ETH_P_IP] <;> omega

/-- The outcome of `xdp_load_balancer` on every buffer, as a case distinction
over the checks of the header walk and the direction of the packet. -/
theorem xdp_load_balancer_eq (xxhash32 : List Byte → Nat → Nat → Nat) (be : Bool)
    (backends : Nat → Option backend_config) (buf : List Byte) :
    xdp_load_balancer xxhash32 be backends buf =
      if buf.length < 14 then some (XDP_PASS, buf)
      else if eth_proto buf ≠ 0x0800 then some (XDP_PASS, buf)
      else if buf.length < 34 then some (XDP_PASS, buf)
      else if ip_protocol buf ≠ 6 then some (XDP_PASS, buf)
      else if buf.length < tcp_off buf + 20 then some (XDP_PASS, buf)
      else if host_value be (slice buf 26 4) = client_ip be then
        match backends (flow_slot xxhash32 be buf) with
        | none => some (XDP_PASS, buf)
        | some b =>
          some (XDP_TX, tx_result be (dest_rewritten be buf b.ip b.mac) (tcp_off buf))
      else some (XDP_TX, tx_result be (dest_rewritten be buf (client_ip be) client_mac)
        (tcp_off buf)) := by
  unfold xdp_load_balancer
  simp only [Nat.reduceAdd, Nat.zero_add]
  by_cases h14 : buf.length < 14
  · rw [if_pos (by omega), if_pos h14]
  rw [if_neg (by omega), if_neg h14, load_eq (by omega), Option.some_bind, slice_two (by omega)]
  by_cases hp : eth_proto buf ≠ 0x0800
  · rw [if_pos ((host16_ne_htons be _ _).2 hp), if_pos hp]
  rw [if_neg (fun hc => hp ((host16_ne_htons be _ _).1 hc)), if_neg hp]
  by_cases h34 : buf.length < 34
  · rw [if_pos (by omega), if_pos h34]
  rw [if_neg (by omega), if_neg h34, load_eq (by omega), Option.some_bind, slice_one (by omega),
    host_value_one]
  by_cases hpr : ip_protocol buf ≠ 6
  · have hpr2 : (buf.getD 23 0).val ≠ IPPROTO_TCP := hpr
    rw [if_pos hpr2, if_pos hpr]
  have hpr2 : ¬ (buf.getD 23 0).val ≠ IPPROTO_TCP := hpr
  rw [if_neg hpr2, if_neg hpr, load_eq (by omega), Option.some_bind, slice_one (by omega),
    host_value_one]
  have hT : 14 + (buf.getD 14 0).val % 16 * 4 = tcp_off buf := rfl
  simp only [hT]
  by_cases ht : buf.length < tcp_off buf + 20
  · rw [if_pos (by omega), if_pos ht]
  rw [if_neg (by omega), if_neg ht, load_eq (by omega), Option.some_bind]
  by_cases hc : host_value be (slice buf 26 4) = client_ip be
  · rw [if_pos hc, if_pos hc, load_eq (by omega), Option.some_bind, load_eq (by omega),
      Option.some_bind, load_eq (by omega), Option.some_bind]
    have hs : xxhash32 (four_tuple be (host_value be (slice buf 26 4))
        (host_value be (slice buf 30 4)) (host_value be (slice buf (tcp_off buf) 2))
        (host_value be (slice buf (tcp_off buf + 2) 2))) 12 0 % 2 = flow_slot xxhash32 be buf := rfl
    rw [hs]
    cases hb : backends (flow_slot xxhash32 be buf) with
    | none => rfl
    | some b =>
      simp only []
      have h1 : (splice buf 30 (host_bytes be 4 b.ip)).length = buf.length :=
        length_splice (by rw [length_host_bytes]; omega)
      rw [store_eq _ (by omega), Option.some_bind,
        memcpy_eq b.mac_len (by omega), Option.some_bind]
      have hl := length_dest_rewritten be buf b.ip (by omega) b.mac_len
      have hr := rewrite_source_eq be (dest_rewritten be buf b.ip b.mac) (tcp_off buf)
        (by omega) (by omega)
      rw [hl] at hr
      exact hr
  · rw [if_neg hc, if_neg hc]
    have h1 : (splice buf 30 (host_bytes be 4 (client_ip be))).length = buf.length :=
      length_splice (by rw [length_host_bytes]; omega)
    rw [store_eq _ (by omega), Option.some_bind,
      memcpy_eq (rfl : client_mac.length = 6) (by omega), Option.some_bind]
    have hl := length_dest_rewritten be buf (client_ip be)
      (by omega) (rfl : client_mac.length = 6)
    have hr := rewrite_source_eq be (dest_rewritten be buf (client_ip be) client_mac)
      (tcp_off buf) (by omega) (by omega)
    rw [hl] at hr
    exact hr


/-! ## The bytes of the rewritten packet -/

theorem getElem?_dest_rewritten (be : Bool) (buf : List Byte) (dip : Nat) {dmac : List Byte}
    (h : 34 ≤ buf.length) (hm : dmac.length = 6) (j : Nat) :
    (dest_rewritten be buf dip dmac)[j]? =
      if j < 6 then dmac[j]?
      else if 30 ≤ j ∧ j < 34 then (host_bytes be 4 dip)[j - 30]?
      else buf[j]? := by
  have h1 : (splice buf 30 (host_bytes be 4 dip)).length = buf.length :=
    length_splice (by rw [length_host_bytes]; omega)
  unfold dest_rewritten
  rw [getElem?_splice (by rw [h1, hm]; omega), getElem?_splice (by rw [length_host_bytes]; omega)]
  simp only [hm, length_host_bytes, Nat.zero_add, Nat.zero_le, true_and, Nat.sub_zero,
    Nat.reduceAdd]

theorem getElem?_tx_result (be : Bool) (buf : List Byte) (tcph : Nat)
    (h : 34 ≤ buf.length) (ht : tcph + 20 ≤ buf.length) (j : Nat) :
    (tx_result be buf tcph)[j]? =
      if tcph + 16 ≤ j ∧ j < tcph + 18 then
        (host_bytes be 2 (tcp_check be buf tcph))[j - (tcph + 16)]?
      else if 24 ≤ j ∧ j < 26 then (host_bytes be 2 (ip_check be buf))[j - 24]?
      else if 6 ≤ j ∧ j < 12 then load_balancer_mac[j - 6]?
      else if 26 ≤ j ∧ j < 30 then (host_bytes be 4 (load_balancer_ip be))[j - 26]?
      else buf[j]? := by
  have h1 : (splice buf 26 (host_bytes be 4 (load_balancer_ip be))).length = buf.length :=
    length_splice (by rw [length_host_bytes]; omega)
  have h2 : (splice (splice buf 26 (host_bytes be 4 (load_balancer_ip be))) 6
      load_balancer_mac).length = buf.length := by
    rw [length_splice (by rw [h1]; simp [load_balancer_mac]; omega), h1]
  have h3 := length_ip_cleared be h
  have h4 := length_ip_done be h
  have h5 := length_tcp_cleared be h ht
  have hm : load_balancer_mac.length = 6 := rfl
  unfold tx_result
  rw [getElem?_splice (by rw [h5, length_host_bytes]; omega)]
  unfold tcp_cleared
  rw [getElem?_splice (by rw [h4, length_host_bytes]; omega)]
  unfold ip_done
  rw [getElem?_splice (by rw [h3, length_host_bytes]; omega)]
  unfold ip_cleared
  rw [getElem?_splice (by rw [h2, length_host_bytes]; omega),
    getElem?_splice (by rw [h1, hm]; omega),
    getElem?_splice (by rw [length_host_bytes]; omega)]
  simp only [hm, length_host_bytes, Nat.reduceAdd, Nat.add_assoc]
  split_ifs <;> rfl


/-! ## Field encodings -/

theorem le_value_le_bytes (n v : Nat) : le_value (le_bytes n v) = v % 256 ^ n := by
  induction n generalizing v with
  | zero => simp [le_bytes, le_value, Nat.mod_one]
  | succ n ih =>
    simp only [le_bytes, le_value, ih, toByte]
    rw [pow_succ', Nat.mod_mul]

theorem host_value_host_bytes (be : Bool) (n v : Nat) :
    host_value be (host_bytes be n v) = v % 256 ^ n := by
  cases be <;> simp [host_value, host_bytes, le_value_le_bytes]

theorem host_value_host_bytes4 (be : Bool) {v : Nat} (hv : v < 4294967296) :
    host_value be (host_bytes be 4 v) = v := by
  rw [host_value_host_bytes]
  have e : (256 : Nat) ^ 4 = 4294967296 := by norm_num
  rw [e]
  exact Nat.mod_eq_of_lt hv

theorem host_value_host_bytes2 (be : Bool) {v : Nat} (hv : v < 65536) :
    host_value be (host_bytes be 2 v) = v := by
  rw [host_value_host_bytes]
  have e : (256 : Nat) ^ 2 = 65536 := by norm_num
  rw [e]
  exact Nat.mod_eq_of_lt hv

theorem le_bytes_le_value (bs : List Byte) : le_bytes bs.length (le_value bs) = bs := by
  induction bs with
  | nil => rfl
  | cons b bs ih =>
    simp only [List.length_cons, le_bytes, le_value]
    have h1 : toByte (b.val + 256 * le_value bs) = b := by
      apply Fin.ext
      simp only [toByte]
      omega
    have h2 : (b.val + 256 * le_value bs) / 256 = le_value bs := by omega
    rw [h1, h2, ih]

theorem host_bytes_host_value (be : Bool) (bs : List Byte) :
    host_bytes be bs.length (host_value be bs) = bs := by
  cases be
  · simp [host_value, host_bytes, le_bytes_le_value]
  · simp only [host_value, host_bytes, if_true]
    have h := le_bytes_le_value bs.reverse
    rw [List.length_reverse] at h
    rw [h, List.reverse_reverse]

theorem client_ip_lt (be : Bool) : client_ip be < 4294967296 := by
  cases be <;> decide

theorem load_balancer_ip_lt (be : Bool) : load_balancer_ip be < 4294967296 := by
  cases be <;> decide

theorem slice_eq_of_getElem? {buf bs : List Byte} {off n : Nat} (hn : bs.length = n)
    (h : ∀ j, j < n → buf[off + j]? = bs[j]?) : slice buf off n = bs := by
  apply List.ext_getElem?
  intro j
  rw [getElem?_slice]
  by_cases hj : j < n
  · rw [if_pos hj, h j hj]
  · rw [if_neg hj, List.getElem?_eq_none (by omega)]

/-- The address fields of the packet that the program transmits, when the TCP
checksum field lies behind the IPv4 addresses. -/
theorem tx_result_fields (be : Bool) {buf : List Byte} {tcph : Nat} (dip : Nat)
    {dmac : List Byte} (h : 34 ≤ buf.length) (ht : tcph + 20 ≤ buf.length)
    (hm : dmac.length = 6) (h18 : 18 ≤ tcph) :
    slice (tx_result be (dest_rewritten be buf dip dmac) tcph) 0 6 = dmac ∧
    slice (tx_result be (dest_rewritten be buf dip dmac) tcph) 6 6 = load_balancer_mac ∧
    slice (tx_result be (dest_rewritten be buf dip dmac) tcph) 26 4
      = host_bytes be 4 (load_balancer_ip be) ∧
    slice (tx_result be (dest_rewritten be buf dip dmac) tcph) 30 4 = host_bytes be 4 dip := by
  have hl := length_dest_rewritten be buf dip h hm
  have hg := fun j => getElem?_tx_result be (dest_rewritten be buf dip dmac) tcph
    (by omega) (by omega) j
  have hd := fun j => getElem?_dest_rewritten be buf dip h hm j
  have hm2 : load_balancer_mac.length = 6 := rfl
  refine ⟨?_, ?_, ?_, ?_⟩
  · apply slice_eq_of_getElem? hm
    intro j hj
    rw [hg, hd, if_neg (by omega), if_neg (by omega), if_neg (by omega), if_neg (by omega),
      if_pos (by omega), Nat.zero_add]
  · apply slice_eq_of_getElem? hm2
    intro j hj
    rw [hg, if_neg (by omega), if_neg (by omega), if_pos (by omega)]
    congr 1; omega
  · apply slice_eq_of_getElem? (length_host_bytes be 4 _)
    intro j hj
    rw [hg, if_neg (by omega), if_neg (by omega), if_neg (by omega), if_pos (by omega)]
    congr 1; omega
  · apply slice_eq_of_getElem? (length_host_bytes be 4 _)
    intro j hj
    rw [hg, hd, if_neg (by omega), if_neg (by omega), if_neg (by omega), if_neg (by omega),
      if_neg (by omega), if_pos (by omega)]
    congr 1; omega


/-! ## One's-complement sums -/

theorem host_value_two (be : Bool) (a b : Byte) :
    host_value be [a, b] = if be then a.val * 256 + b.val else a.val + 256 * b.val := by
  cases be
  · simp [host_value, le_value]
  · simp [host_value, le_value]; omega

theorem host_value_two_lt (be : Bool) (a b : Byte) : host_value be [a, b] < 65536 := by
  rw [host_value_two]
  cases be <;> simp only [if_true, if_false, Bool.false_eq_true] <;> omega

theorem pair_induction {P : List Byte → Prop} (h0 : P []) (h1 : ∀ x, P [x])
    (h2 : ∀ x y rest, P rest → P (x :: y :: rest)) : ∀ l, P l
  | [] => h0
  | [x] => h1 x
  | x :: y :: rest => h2 x y rest (pair_induction h0 h1 h2 rest)

theorem words16_append (be : Bool) (a b : List Byte) (h : a.length % 2 = 0) :
    words16 be (a ++ b) = words16 be a ++ words16 be b := by
  induction a using pair_induction with
  | h0 => rfl
  | h1 x => simp at h
  | h2 x y rest ih =>
    have h2 : rest.length % 2 = 0 := by simp at h; omega
    have e : x :: y :: rest ++ b = x :: y :: (rest ++ b) := rfl
    rw [e]
    simp only [words16, ih h2, List.cons_append]

theorem sum_words16_le (be : Bool) (bs : List Byte) :
    (words16 be bs).sum ≤ 65535 * ((bs.length + 1) / 2) := by
  induction bs using pair_induction with
  | h0 => simp [words16]
  | h1 x =>
    have := host_value_two_lt be x 0
    simp only [words16, List.sum_cons, List.sum_nil, List.length_singleton]
    omega
  | h2 x y rest ih =>
    have := host_value_two_lt be x y
    simp only [words16, List.sum_cons, List.length_cons]
    omega

/-- The word sums of a byte string in the two byte orders agree up to the
factor 256 modulo `0xFFFF`, and vanish together. -/
theorem sum_words16_swap (bs : List Byte) :
    (256 * (words16 false bs).sum) % 65535 = (words16 true bs).sum % 65535 ∧
    (256 * (words16 true bs).sum) % 65535 = (words16 false bs).sum % 65535 ∧
    ((words16 true bs).sum = 0 ↔ (words16 false bs).sum = 0) := by
  induction bs using pair_induction with
  | h0 => simp [words16]
  | h1 x =>
    simp only [words16, host_value_two, List.sum_cons, List.sum_nil]
    simp
    omega
  | h2 x y rest ih =>
    obtain ⟨h1, h2, h3⟩ := ih
    simp only [words16, host_value_two, List.sum_cons]
    simp
    omega

theorem ones_fold_aux_eq (n : Nat) :
    ∀ x, x ≤ n → 0 < x → x % 65535 = 0 → ones_fold_aux n x = 65535 := by
  induction n with
  | zero => intro x h1 h2; omega
  | succ n ih =>
    intro x h1 h2 h3
    unfold ones_fold_aux
    by_cases hx : x < 65536
    · rw [if_pos hx]; omega
    · rw [if_neg hx]
      exact ih _ (by omega) (by omega) (by omega)

theorem ones_fold_eq {x : Nat} (h0 : 0 < x) (hm : x % 65535 = 0) : ones_fold x = 65535 :=
  ones_fold_aux_eq x x (Nat.le_refl x) h0 hm

/-- A byte string verifies in network order as soon as its word sum in the
byte order of the target is a positive multiple of `0xFFFF`. -/
theorem inet_residual_of_host_sum (be : Bool) (bs : List Byte)
    (h0 : 0 < (words16 be bs).sum) (hm : (words16 be bs).sum % 65535 = 0) :
    inet_residual bs = 0xFFFF := by
  obtain ⟨h1, h2, h3⟩ := sum_words16_swap bs
  unfold inet_residual
  cases be
  · apply ones_fold_eq <;> omega
  · exact ones_fold_eq h0 hm

theorem shiftRight_16 (x : Nat) : x >>> 16 = x / 65536 := by
  rw [Nat.shiftRight_eq_div_pow]

theorem and_ffff (x : Nat) : x &&& 0xFFFF = x % 65536 := by
  have h := Nat.and_pow_two_sub_one_eq_mod x 16
  norm_num at h
  exact h

theorem tcph_fold_spec (n : Nat) :
    ∀ s, s ≤ n → s < 4294967296 →
      tcph_fold n s < 65536 ∧ tcph_fold n s % 65535 = s % 65535 ∧
        (tcph_fold n s = 0 ↔ s = 0) := by
  induction n with
  | zero =>
    intro s h1 h2
    have : s = 0 := by omega
    subst this
    simp [tcph_fold]
  | succ n ih =>
    intro s h1 h2
    unfold tcph_fold
    rw [shiftRight_16, and_ffff]
    by_cases hs : s / 65536 ≠ 0
    · rw [if_pos hs]
      have e : (s % 65536 + s / 65536) % 2 ^ 32 = s % 65536 + s / 65536 := by
        norm_num; omega
      rw [e]
      obtain ⟨i1, i2, i3⟩ := ih (s % 65536 + s / 65536) (by omega) (by omega)
      refine ⟨i1, ?_, ?_⟩
      · rw [i2]; omega
      · rw [i3]; omega
    · rw [if_neg hs]
      refine ⟨by omega, rfl, Iff.rfl⟩


/-! ## The TCP checksum of the transmitted packet -/

theorem slice_add (buf : List Byte) (off a b : Nat) :
    slice buf off (a + b) = slice buf off a ++ slice buf (off + a) b := by
  unfold slice
  rw [List.take_add, List.drop_drop]

theorem host_bytes_two (be : Bool) (v : Nat) : ∃ a b, host_bytes be 2 v = [a, b] := by
  cases be
  · exact ⟨_, _, rfl⟩
  · exact ⟨_, _, rfl⟩

theorem words16_host_bytes2 (be : Bool) (v : Nat) :
    words16 be (host_bytes be 2 v) = [v % 65536] := by
  obtain ⟨a, b, hab⟩ := host_bytes_two be v
  have h := host_value_host_bytes be 2 v
  rw [hab] at h
  rw [hab]
  simp only [words16, h]
  norm_num

theorem length_four {bs : List Byte} (h : bs.length = 4) :
    ∃ a b c d, bs = [a, b, c, d] := by
  match bs, h with
  | [a, b, c, d], _ => exact ⟨a, b, c, d, rfl⟩

theorem host_halves (be : Bool) (a0 a1 a2 a3 : Byte) :
    (host_value be [a0, a1, a2, a3] >>> 16) % 2 ^ 16
        + (host_value be [a0, a1, a2, a3] &&& 0xFFFF) % 2 ^ 16
      = host_value be [a0, a1] + host_value be [a2, a3] := by
  rw [shiftRight_16, and_ffff]
  cases be
  · simp [host_value, le_value]
    omega
  · simp [host_value, le_value]
    omega

theorem htons_proto (be : Bool) : bpf_htons be IPPROTO_TCP = host_value be [0, 6] := by
  cases be <;> rfl

theorem htons_len (be : Bool) (seglen : Nat) :
    bpf_htons be (seglen % 2 ^ 16) = host_value be [toByte (seglen / 256), toByte seglen] := by
  cases be
  · simp [host_value, le_value, bpf_htons, bswap16, toByte]
    omega
  · simp [host_value, le_value, bpf_htons, bswap16, toByte]
    omega

/-- The accumulator before the loop is the word sum of the pseudo-header in
the byte order of the target. -/
theorem tcp_pseudo_sum_eq (be : Bool) (sa da : List Byte) (seglen : Nat)
    (hs : sa.length = 4) (hd : da.length = 4) :
    tcp_pseudo_sum be (host_value be sa) (host_value be da) seglen =
      (words16 be (sa ++ da ++ [0, 6, toByte (seglen / 256), toByte seglen])).sum := by
  obtain ⟨a0, a1, a2, a3, rfl⟩ := length_four hs
  obtain ⟨d0, d1, d2, d3, rfl⟩ := length_four hd
  unfold tcp_pseudo_sum
  rw [host_halves, host_halves, htons_proto, htons_len]
  have b1 := host_value_two_lt be a0 a1
  have b2 := host_value_two_lt be a2 a3
  have b3 := host_value_two_lt be d0 d1
  have b4 := host_value_two_lt be d2 d3
  have b5 := host_value_two_lt be 0 6
  have b6 := host_value_two_lt be (toByte (seglen / 256)) (toByte seglen)
  simp only [List.cons_append, List.nil_append, words16, List.sum_cons, List.sum_nil]
  omega


theorem splice_splice {buf : List Byte} {off : Nat} {bs1 bs2 : List Byte}
    (h : off + bs1.length ≤ buf.length) (hl : bs1.length = bs2.length) :
    splice (splice buf off bs1) off bs2 = splice buf off bs2 := by
  apply List.ext_getElem?
  intro j
  rw [getElem?_splice (by rw [length_splice h]; omega), getElem?_splice h,
    getElem?_splice (by omega)]
  by_cases hj : off ≤ j ∧ j < off + bs2.length
  · rw [if_pos hj, if_pos hj]
  · rw [if_neg hj, if_neg hj, if_neg (by omega)]

theorem slice_splice_mid {buf : List Byte} {off : Nat} {bs : List Byte}
    (h : off + bs.length ≤ buf.length) (o a c : Nat) (ho : off = o + a) :
    slice (splice buf off bs) o (a + (bs.length + c)) =
      slice buf o a ++ (bs ++ slice buf (off + bs.length) c) := by
  have e1 : slice (splice buf off bs) o a = slice buf o a :=
    slice_splice_disjoint h (Or.inl (by omega))
  have e2 : slice (splice buf off bs) (o + a) bs.length = bs := by
    rw [← ho]; exact slice_splice_same h
  have e3 : slice (splice buf off bs) (o + a + bs.length) c = slice buf (off + bs.length) c := by
    rw [← ho]; exact slice_splice_disjoint h (Or.inr (Nat.le_refl _))
  rw [slice_add, slice_add, e1, e2, e3]

/-- Word sum, in the byte order of the target, of the pseudo-header and of the
summed part of the segment of the packet that `rewrite_source` leaves: a
positive multiple of `0xFFFF`. -/
theorem tcp_host_sum (be : Bool) (buf : List Byte) (tcph : Nat) (h : 34 ≤ buf.length)
    (ht : tcph + 20 ≤ buf.length) (h18 : 18 ≤ tcph) :
    0 < (words16 be (slice (tx_result be buf tcph) 26 4 ++ slice (tx_result be buf tcph) 30 4 ++
        [0, 6, toByte ((buf.length - tcph) / 256), toByte (buf.length - tcph)] ++
        slice (tx_result be buf tcph) tcph (2 * summed_words buf.length tcph))).sum ∧
    (words16 be (slice (tx_result be buf tcph) 26 4 ++ slice (tx_result be buf tcph) 30 4 ++
        [0, 6, toByte ((buf.length - tcph) / 256), toByte (buf.length - tcph)] ++
        slice (tx_result be buf tcph) tcph (2 * summed_words buf.length tcph))).sum % 65535
      = 0 := by
  have hX := length_tcp_cleared be h ht
  have hm : 10 ≤ summed_words buf.length tcph ∧
      tcph + 2 * summed_words buf.length tcph ≤ buf.length ∧
      summed_words buf.length tcph ≤ 751 := by
    unfold summed_words MAX_TCP_CHECK_WORDS
    omega
  obtain ⟨hm1, hm2, hm3⟩ := hm
  generalize hmdef : summed_words buf.length tcph = m at hm1 hm2 hm3 ⊢
  have hYl := length_ip_done be h
  have hck : tcp_check be buf tcph =
      (2 ^ 32 - 1 - tcph_fold (tcp_acc be (tcp_cleared be buf tcph) tcph)
        (tcp_acc be (tcp_cleared be buf tcph) tcph)) % 2 ^ 16 := rfl
  -- both the cleared and the final packet are the packet `Y` with two bytes replaced
  have hlz : tcph + 16 + (host_bytes be 2 0).length ≤ (ip_done be buf).length := by
    rw [length_host_bytes]; omega
  have hlc : tcph + 16 + (host_bytes be 2 (tcp_check be buf tcph)).length
      ≤ (ip_done be buf).length := by rw [length_host_bytes]; omega
  have hXY : tcp_cleared be buf tcph = splice (ip_done be buf) (tcph + 16) (host_bytes be 2 0) :=
    rfl
  have hOY : tx_result be buf tcph =
      splice (ip_done be buf) (tcph + 16) (host_bytes be 2 (tcp_check be buf tcph)) := by
    unfold tx_result
    rw [hXY]
    exact splice_splice hlz (by rw [length_host_bytes, length_host_bytes])
  generalize tcp_check be buf tcph = ck at hck hlc hOY ⊢
  generalize hYdef : ip_done be buf = Y at hYl hlz hlc hXY hOY
  have e2m : 2 * m = 16 + (2 + (2 * m - 18)) := by omega
  have o1 : slice (tx_result be buf tcph) 26 4 = slice Y 26 4 := by
    rw [hOY]; exact slice_splice_disjoint hlc (Or.inl (by omega))
  have o2 : slice (tx_result be buf tcph) 30 4 = slice Y 30 4 := by
    rw [hOY]; exact slice_splice_disjoint hlc (Or.inl (by omega))
  have x1 : slice (tcp_cleared be buf tcph) 26 4 = slice Y 26 4 := by
    rw [hXY]; exact slice_splice_disjoint hlz (Or.inl (by omega))
  have x2 : slice (tcp_cleared be buf tcph) 30 4 = slice Y 30 4 := by
    rw [hXY]; exact slice_splice_disjoint hlz (Or.inl (by omega))
  have s1 : slice (tx_result be buf tcph) tcph (2 * m) =
      slice Y tcph 16 ++ (host_bytes be 2 ck ++ slice Y (tcph + 16 + 2) (2 * m - 18)) := by
    have hs := slice_splice_mid hlc tcph 16 (2 * m - 18) rfl
    rw [length_host_bytes] at hs
    rw [hOY]
    conv_lhs => rw [e2m]
    exact hs
  have s2 : slice (tcp_cleared be buf tcph) tcph (2 * m) =
      slice Y tcph 16 ++ (host_bytes be 2 0 ++ slice Y (tcph + 16 + 2) (2 * m - 18)) := by
    have hs := slice_splice_mid hlz tcph 16 (2 * m - 18) rfl
    rw [length_host_bytes] at hs
    rw [hXY]
    conv_lhs => rw [e2m]
    exact hs
  -- lengths of the pieces
  have lA : (slice Y tcph 16).length = 16 := length_slice (by omega)
  have lsa : (slice Y 26 4).length = 4 := length_slice (by omega)
  have lda : (slice Y 30 4).length = 4 := length_slice (by omega)
  have lR : (slice Y (tcph + 16 + 2) (2 * m - 18)).length = 2 * m - 18 :=
    length_slice (by omega)
  have lP : (slice Y 26 4 ++ slice Y 30 4 ++
      [0, 6, toByte ((buf.length - tcph) / 256), toByte (buf.length - tcph)]).length = 12 := by
    simp [lsa, lda]
  -- the accumulator of the program
  have hacc : tcp_acc be (tcp_cleared be buf tcph) tcph =
      ((words16 be (slice Y 26 4 ++ slice Y 30 4 ++
          [0, 6, toByte ((buf.length - tcph) / 256), toByte (buf.length - tcph)])).sum +
        ((words16 be (slice Y tcph 16)).sum + (0 +
          (words16 be (slice Y (tcph + 16 + 2) (2 * m - 18))).sum))) % 2 ^ 32 := by
    unfold tcp_acc
    rw [hX, hmdef, s2, x1, x2, tcp_pseudo_sum_eq be _ _ _ lsa lda,
      words16_append be (slice Y tcph 16) _ (by rw [lA]),
      words16_append be (host_bytes be 2 0) _ (by rw [length_host_bytes]),
      words16_host_bytes2]
    simp only [List.sum_append, List.sum_cons, List.sum_nil, Nat.zero_mod, Nat.add_zero]
  have hV : (words16 be (slice (tx_result be buf tcph) 26 4 ++ slice (tx_result be buf tcph) 30 4 ++
        [0, 6, toByte ((buf.length - tcph) / 256), toByte (buf.length - tcph)] ++
        slice (tx_result be buf tcph) tcph (2 * m))).sum =
      (words16 be (slice Y 26 4 ++ slice Y 30 4 ++
          [0, 6, toByte ((buf.length - tcph) / 256), toByte (buf.length - tcph)])).sum +
        ((words16 be (slice Y tcph 16)).sum + (ck % 65536 +
          (words16 be (slice Y (tcph + 16 + 2) (2 * m - 18))).sum)) := by
    rw [o1, o2, s1, words16_append be (slice Y 26 4 ++ slice Y 30 4 ++
        [0, 6, toByte ((buf.length - tcph) / 256), toByte (buf.length - tcph)]) _ (by rw [lP]),
      words16_append be (slice Y tcph 16) _ (by rw [lA]),
      words16_append be (host_bytes be 2 ck) _ (by rw [length_host_bytes]),
      words16_host_bytes2]
    simp only [List.sum_append, List.sum_cons, List.sum_nil, Nat.add_zero]
  rw [hV]
  -- bounds on the pieces
  have bP := sum_words16_le be (slice Y 26 4 ++ slice Y 30 4 ++
      [0, 6, toByte ((buf.length - tcph) / 256), toByte (buf.length - tcph)])
  rw [lP] at bP
  have bA := sum_words16_le be (slice Y tcph 16)
  rw [lA] at bA
  have bR := sum_words16_le be (slice Y (tcph + 16 + 2) (2 * m - 18))
  rw [lR] at bR
  generalize (words16 be (slice Y 26 4 ++ slice Y 30 4 ++
      [0, 6, toByte ((buf.length - tcph) / 256), toByte (buf.length - tcph)])).sum = P
    at hacc bP ⊢
  generalize (words16 be (slice Y tcph 16)).sum = A at hacc bA ⊢
  generalize (words16 be (slice Y (tcph + 16 + 2) (2 * m - 18))).sum = R at hacc bR ⊢
  have hR : R ≤ 65535 * 742 := by
    have : (2 * m - 18 + 1) / 2 ≤ 742 := by omega
    calc R ≤ 65535 * ((2 * m - 18 + 1) / 2) := bR
      _ ≤ 65535 * 742 := Nat.mul_le_mul_left _ this
  have hacc2 : tcp_acc be (tcp_cleared be buf tcph) tcph = P + (A + R) := by
    rw [hacc]; norm_num; omega
  have hlt : tcp_acc be (tcp_cleared be buf tcph) tcph < 4294967296 := by omega
  obtain ⟨f1, f2, f3⟩ := tcph_fold_spec _ _ (Nat.le_refl _) hlt
  generalize tcph_fold (tcp_acc be (tcp_cleared be buf tcph) tcph)
    (tcp_acc be (tcp_cleared be buf tcph) tcph) = r at f1 f2 f3 hck
  norm_num at hck
  rw [hacc2] at f2 f3
  constructor <;> omega


/-! ## Address rewrite and pass-through -/

theorem xdp_of_walk (xxhash32 : List Byte → Nat → Nat → Nat) (be : Bool)
    (backends : Nat → Option backend_config) {buf : List Byte} (hw : passes_walk buf) :
    xdp_load_balancer xxhash32 be backends buf =
      if host_value be (slice buf 26 4) = client_ip be then
        match backends (flow_slot xxhash32 be buf) with
        | none => some (XDP_PASS, buf)
        | some b =>
          some (XDP_TX, tx_result be (dest_rewritten be buf b.ip b.mac) (tcp_off buf))
      else some (XDP_TX, tx_result be (dest_rewritten be buf (client_ip be) client_mac)
        (tcp_off buf)) := by
  obtain ⟨h14, hp, hpr, ht⟩ := hw
  have hT : 14 ≤ tcp_off buf := by unfold tcp_off; omega
  rw [xdp_load_balancer_eq, if_neg (by omega), if_neg (by omega), if_neg (by omega),
    if_neg (by omega), if_neg (by omega)]

theorem walk_length {buf : List Byte} (hw : passes_walk buf) : 34 ≤ buf.length := by
  obtain ⟨_, _, _, ht⟩ := hw
  unfold tcp_off at ht
  omega

theorem load_src_iff {be : Bool} {buf : List Byte} (h : 34 ≤ buf.length) (v : Nat) :
    load be buf 26 4 = some v ↔ host_value be (slice buf 26 4) = v := by
  rw [load_eq (by omega)]
  exact Option.some_inj

/-- C1: a frame that passes the header walk with `ihl ≥ 5`, comes from the client
address and whose slot resolves to a backend `b` is answered with `XDP_TX`, and
the emitted frame carries `b.ip` and `b.mac` as destination and the load
balancer's address and MAC as source. -/
theorem client_frame_sent_to_backend (xxhash32 : List Byte → Nat → Nat → Nat) (be : Bool)
    (backends : Nat → Option backend_config) (buf : List Byte) (b : backend_config)
    (hw : passes_walk buf) (hihl : 5 ≤ ip_ihl buf)
    (hsrc : load be buf 26 4 = some (client_ip be))
    (hb : backends (flow_slot xxhash32 be buf) = some b) :
    ∃ out, xdp_load_balancer xxhash32 be backends buf = some (XDP_TX, out) ∧
      load be out 30 4 = some b.ip ∧ mem_read out 0 6 = some b.mac ∧
      load be out 26 4 = some (load_balancer_ip be) ∧
      mem_read out 6 6 = some load_balancer_mac := by
  have h34 := walk_length hw
  have ht : tcp_off buf + 20 ≤ buf.length := hw.2.2.2
  have h18 : 18 ≤ tcp_off buf := by unfold tcp_off; omega
  have hl := length_dest_rewritten be buf b.ip h34 b.mac_len
  have hlen := length_tx_result be (dest_rewritten be buf b.ip b.mac) (tcp_off buf)
    (by omega) (by omega)
  obtain ⟨f1, f2, f3, f4⟩ := tx_result_fields be b.ip h34 ht b.mac_len h18
  refine ⟨tx_result be (dest_rewritten be buf b.ip b.mac) (tcp_off buf), ?_, ?_, ?_, ?_, ?_⟩
  · rw [xdp_of_walk xxhash32 be backends hw, if_pos ((load_src_iff h34 _).1 hsrc), hb]
  · rw [load_eq (by omega), f4, host_value_host_bytes4 be b.ip_lt]
  · rw [mem_read_eq (by omega), f1]
  · rw [load_eq (by omega), f3, host_value_host_bytes4 be (load_balancer_ip_lt be)]
  · rw [mem_read_eq (by omega), f2]

theorem client_frame_sent_to_backend_witness :
    (passes_walk client_frame ∧ 5 ≤ ip_ihl client_frame ∧
      load false client_frame 26 4 = some (client_ip false) ∧
      sample_directory (flow_slot sample_hash false client_frame) = some sample_backend) ∧
    ∃ out, xdp_load_balancer sample_hash false sample_directory client_frame
        = some (XDP_TX, out) ∧
      load false out 30 4 = some sample_backend.ip ∧
      mem_read out 0 6 = some sample_backend.mac ∧
      load false out 26 4 = some (load_balancer_ip false) ∧
      mem_read out 6 6 = some load_balancer_mac :=
  ⟨⟨by decide, by decide, by decide, rfl⟩,
    client_frame_sent_to_backend sample_hash false sample_directory client_frame sample_backend
      (by decide) (by decide) (by decide) rfl⟩

/-- C2: a frame that passes the header walk with `ihl ≥ 5` and whose source
address is not the client address is answered with `XDP_TX`, whatever the
directory holds, and the emitted frame carries the client's address and MAC as
destination and the load balancer's address and MAC as source. -/
theorem other_frame_sent_to_client (xxhash32 : List Byte → Nat → Nat → Nat) (be : Bool)
    (backends : Nat → Option backend_config) (buf : List Byte)
    (hw : passes_walk buf) (hihl : 5 ≤ ip_ihl buf)
    (hsrc : load be buf 26 4 ≠ some (client_ip be)) :
    ∃ out, xdp_load_balancer xxhash32 be backends buf = some (XDP_TX, out) ∧
      load be out 30 4 = some (client_ip be) ∧ mem_read out 0 6 = some client_mac ∧
      load be out 26 4 = some (load_balancer_ip be) ∧
      mem_read out 6 6 = some load_balancer_mac := by
  have h34 := walk_length hw
  have ht : tcp_off buf + 20 ≤ buf.length := hw.2.2.2
  have h18 : 18 ≤ tcp_off buf := by unfold tcp_off; omega
  have hm : client_mac.length = 6 := rfl
  have hl := length_dest_rewritten be buf (client_ip be) h34 hm
  have hlen := length_tx_result be (dest_rewritten be buf (client_ip be) client_mac) (tcp_off buf)
    (by omega) (by omega)
  obtain ⟨f1, f2, f3, f4⟩ := tx_result_fields be (client_ip be) h34 ht hm h18
  refine ⟨tx_result be (dest_rewritten be buf (client_ip be) client_mac) (tcp_off buf),
    ?_, ?_, ?_, ?_, ?_⟩
  · rw [xdp_of_walk xxhash32 be backends hw,
      if_neg (fun hc => hsrc ((load_src_iff h34 _).2 hc))]
  · rw [load_eq (by omega), f4, host_value_host_bytes4 be (client_ip_lt be)]
  · rw [mem_read_eq (by omega), f1]
  · rw [load_eq (by omega), f3, host_value_host_bytes4 be (load_balancer_ip_lt be)]
  · rw [mem_read_eq (by omega), f2]

theorem other_frame_sent_to_client_witness :
    (passes_walk backend_frame ∧ 5 ≤ ip_ihl backend_frame ∧
      load false backend_frame 26 4 ≠ some (client_ip false)) ∧
    ∃ out, xdp_load_balancer sample_hash false empty_directory backend_frame
        = some (XDP_TX, out) ∧
      load false out 30 4 = some (client_ip false) ∧ mem_read out 0 6 = some client_mac ∧
      load false out 26 4 = some (load_balancer_ip false) ∧
      mem_read out 6 6 = some load_balancer_mac :=
  ⟨⟨by decide, by decide, by decide⟩,
    other_frame_sent_to_client sample_hash false empty_directory backend_frame
      (by decide) (by decide) (by decide)⟩

/-- C3: a buffer that fails a check of the header walk (shorter than 14 bytes,
ethertype other than `0x0800`, no room for the IPv4 header, protocol other than
TCP, or no room for 20 bytes of TCP header at `14 + ihl*4`) is answered with
`XDP_PASS` and is left exactly as it was. -/
theorem walk_failure_passes_unchanged (xxhash32 : List Byte → Nat → Nat → Nat) (be : Bool)
    (backends : Nat → Option backend_config) (buf : List Byte)
    (hfail : buf.length < 14 ∨ eth_proto buf ≠ 0x0800 ∨ buf.length < 14 + 20 ∨
      buf.length < 14 + ip_ihl buf * 4 ∨ ip_protocol buf ≠ 6 ∨
      buf.length < 14 + ip_ihl buf * 4 + 20) :
    xdp_load_balancer xxhash32 be backends buf = some (XDP_PASS, buf) := by
  rw [xdp_load_balancer_eq]
  unfold tcp_off
  split_ifs <;> first | rfl | (exfalso; omega)

theorem walk_failure_passes_unchanged_witness :
    (arp_frame.length = 60 ∧ eth_proto arp_frame ≠ 0x0800) ∧
    xdp_load_balancer sample_hash false sample_directory arp_frame = some (XDP_PASS, arp_frame) :=
  ⟨⟨by decide, by decide⟩,
    walk_failure_passes_unchanged sample_hash false sample_directory arp_frame
      (Or.inr (Or.inl (by decide)))⟩

theorem miss_passes_aux (xxhash32 : List Byte → Nat → Nat → Nat) (be : Bool)
    (backends : Nat → Option backend_config) {buf : List Byte}
    (hw : passes_walk buf) (hsrc : load be buf 26 4 = some (client_ip be))
    (hb : backends (flow_slot xxhash32 be buf) = none) :
    xdp_load_balancer xxhash32 be backends buf = some (XDP_PASS, buf) := by
  rw [xdp_of_walk xxhash32 be backends hw,
    if_pos ((load_src_iff (walk_length hw) _).1 hsrc), hb]

/-- C4: a frame that passes the header walk and comes from the client address,
but whose slot has no backend, is answered with `XDP_PASS` and is left exactly
as it was. -/
theorem lookup_miss_passes_unchanged (xxhash32 : List Byte → Nat → Nat → Nat) (be : Bool)
    (backends : Nat → Option backend_config) (buf : List Byte)
    (hw : passes_walk buf) (hsrc : load be buf 26 4 = some (client_ip be))
    (hb : backends (flow_slot xxhash32 be buf) = none) :
    xdp_load_balancer xxhash32 be backends buf = some (XDP_PASS, buf) :=
  miss_passes_aux xxhash32 be backends hw hsrc hb

theorem lookup_miss_passes_unchanged_witness :
    (passes_walk client_frame ∧ load false client_frame 26 4 = some (client_ip false) ∧
      slot1_directory (flow_slot sample_hash false client_frame) = none) ∧
    xdp_load_balancer sample_hash false slot1_directory client_frame
      = some (XDP_PASS, client_frame) :=
  ⟨⟨by decide, by decide, rfl⟩,
    lookup_miss_passes_unchanged sample_hash false slot1_directory client_frame
      (by decide) (by decide) rfl⟩


/-! ## Checksums of the transmitted packet -/

/-- C5: on `options_frame`, an incoming frame with `ihl = 6` whose IPv4 header
verifies, the program answers `XDP_TX` and the 24-byte IPv4 header it emits has
the residual `0x0201` instead of `0xFFFF`: `iph_csum` sums 20 bytes only. -/
theorem ip_checksum_misses_options :
    inet_residual (ip_header options_frame) = 0xFFFF ∧
    (xdp_load_balancer sample_hash false empty_directory options_frame).map
      (fun r => (r.1, ip_ihl r.2, inet_residual (ip_header r.2))) = some (XDP_TX, 6, 0x0201) := by
  decide!

theorem xdp_tx_inv {xxhash32 : List Byte → Nat → Nat → Nat} {be : Bool}
    {backends : Nat → Option backend_config} {buf out : List Byte}
    (h : xdp_load_balancer xxhash32 be backends buf = some (XDP_TX, out)) :
    passes_walk buf ∧ ∃ dip dmac, dmac.length = 6 ∧
      out = tx_result be (dest_rewritten be buf dip dmac) (tcp_off buf) := by
  rw [xdp_load_balancer_eq] at h
  have hne : ∀ x : List Byte, some (XDP_PASS, x) ≠ some (XDP_TX, out) := by
    intro x hx
    simp [XDP_PASS, XDP_TX] at hx
  split_ifs at h with c1 c2 c3 c4 c5 c6
  · exact absurd h (hne _)
  · exact absurd h (hne _)
  · exact absurd h (hne _)
  · exact absurd h (hne _)
  · exact absurd h (hne _)
  · refine ⟨⟨by omega, by omega, by omega, by omega⟩, ?_⟩
    cases hb : backends (flow_slot xxhash32 be buf) with
    | none => rw [hb] at h; exact absurd h (hne _)
    | some b =>
      rw [hb] at h
      simp only [Option.some.injEq, Prod.mk.injEq, true_and] at h
      exact ⟨b.ip, b.mac, b.mac_len, h.symm⟩
  · refine ⟨⟨by omega, by omega, by omega, by omega⟩, ?_⟩
    simp only [Option.some.injEq, Prod.mk.injEq, true_and] at h
    exact ⟨client_ip be, client_mac, rfl, h.symm⟩

theorem getD_congr {l1 l2 : List Byte} {j : Nat} (h : l1[j]? = l2[j]?) (d : Byte) :
    l1.getD j d = l2.getD j d := by
  simp [List.getD_eq_getElem?_getD, h]

theorem getElem?_tx_unchanged (be : Bool) {buf : List Byte} (dip : Nat) {dmac : List Byte}
    (h : 34 ≤ buf.length) (ht : tcp_off buf + 20 ≤ buf.length) (hm : dmac.length = 6) (j : Nat)
    (h12 : 12 ≤ j) (hip : ¬ (24 ≤ j ∧ j < 34))
    (hck : ¬ (tcp_off buf + 16 ≤ j ∧ j < tcp_off buf + 18)) :
    (tx_result be (dest_rewritten be buf dip dmac) (tcp_off buf))[j]? = buf[j]? := by
  have hl := length_dest_rewritten be buf dip h hm
  rw [getElem?_tx_result be _ _ (by omega) (by omega), getElem?_dest_rewritten be buf dip h hm,
    if_neg hck, if_neg (by omega), if_neg (by omega), if_neg (by omega), if_neg (by omega),
    if_neg (by omega)]


theorem tx_ihl_eq (be : Bool) {buf : List Byte} (dip : Nat) {dmac : List Byte}
    (h : 34 ≤ buf.length) (ht : tcp_off buf + 20 ≤ buf.length) (hm : dmac.length = 6) :
    tcp_off (tx_result be (dest_rewritten be buf dip dmac) (tcp_off buf)) = tcp_off buf := by
  have hT : 14 ≤ tcp_off buf := by unfold tcp_off; omega
  have e := getElem?_tx_unchanged be dip h ht hm 14 (by omega) (by omega) (by omega)
  have e2 : ip_ihl (tx_result be (dest_rewritten be buf dip dmac) (tcp_off buf)) = ip_ihl buf := by
    unfold ip_ihl
    rw [getD_congr e]
  calc tcp_off (tx_result be (dest_rewritten be buf dip dmac) (tcp_off buf))
      = 14 + ip_ihl (tx_result be (dest_rewritten be buf dip dmac) (tcp_off buf)) * 4 := rfl
    _ = 14 + ip_ihl buf * 4 := by rw [e2]

/-- C6, as the code has it: when the program answers `XDP_TX` for a frame with
`ihl ≥ 1` whose TCP segment has an even length `L` of at most 1500 bytes, the
`MAX_TCP_CHECK_WORDS` words of line 11, the checksum it stores is the RFC 793
checksum of the whole segment: the one's-complement sum of the pseudo-header
(emitted source and destination address, zero, protocol 6, length `L`) and of
all `L` bytes of the emitted segment folds to `0xFFFF`. -/
theorem tcp_checksum_verifies_within_cap (xxhash32 : List Byte → Nat → Nat → Nat)
    (be : Bool) (backends : Nat → Option backend_config) (buf out : List Byte)
    (h : xdp_load_balancer xxhash32 be backends buf = some (XDP_TX, out))
    (hihl : 1 ≤ ip_ihl buf) (heven : tcp_seg_len buf % 2 = 0)
    (hcap : tcp_seg_len buf ≤ 2 * MAX_TCP_CHECK_WORDS) :
    inet_residual (tcp_checked_bytes out (tcp_seg_len out) (tcp_seg_len out)) = 0xFFFF := by
  obtain ⟨hw, dip, dmac, hm, hout⟩ := xdp_tx_inv h
  rw [hout]
  have h34 := walk_length hw
  have ht : tcp_off buf + 20 ≤ buf.length := hw.2.2.2
  have h18 : 18 ≤ tcp_off buf := by unfold tcp_off; omega
  have hl := length_dest_rewritten be buf dip h34 hm
  have hlen := length_tx_result be (dest_rewritten be buf dip dmac) (tcp_off buf)
    (by omega) (by omega)
  have hoff := tx_ihl_eq be dip h34 ht hm
  obtain ⟨p1, p2⟩ := tcp_host_sum be (dest_rewritten be buf dip dmac)
    (tcp_off buf) (by omega) (by omega) h18
  have hs : 2 * summed_words (dest_rewritten be buf dip dmac).length (tcp_off buf)
      = (dest_rewritten be buf dip dmac).length - tcp_off buf := by
    unfold tcp_seg_len at heven hcap
    unfold MAX_TCP_CHECK_WORDS at hcap
    unfold summed_words MAX_TCP_CHECK_WORDS
    omega
  rw [hs] at p1 p2
  apply inet_residual_of_host_sum be
  · unfold tcp_checked_bytes tcp_seg_len
    rw [hoff, hlen]
    exact p1
  · unfold tcp_checked_bytes tcp_seg_len
    rw [hoff, hlen]
    exact p2

theorem tcp_checksum_verifies_within_cap_witness :
    (xdp_load_balancer sample_hash false sample_directory client_frame2 = some (XDP_TX,
        tx_result false (dest_rewritten false client_frame2 sample_backend.ip sample_backend.mac)
          38) ∧
      1 ≤ ip_ihl client_frame2 ∧ tcp_seg_len client_frame2 % 2 = 0 ∧
      tcp_seg_len client_frame2 ≤ 2 * MAX_TCP_CHECK_WORDS) ∧
    inet_residual (tcp_checked_bytes
      (tx_result false (dest_rewritten false client_frame2 sample_backend.ip sample_backend.mac)
        38)
      (tcp_seg_len
        (tx_result false (dest_rewritten false client_frame2 sample_backend.ip sample_backend.mac)
          38))
      (tcp_seg_len
        (tx_result false (dest_rewritten false client_frame2 sample_backend.ip sample_backend.mac)
          38))) = 0xFFFF :=
  ⟨⟨by decide!, by decide, by decide, by decide⟩,
    tcp_checksum_verifies_within_cap sample_hash false sample_directory client_frame2
      (tx_result false (dest_rewritten false client_frame2 sample_backend.ip sample_backend.mac)
        38)
      (by decide!) (by decide) (by decide) (by decide)⟩

/-- C6 as stated fails: each of the frames `long_frame` (segment of 1504 bytes),
`odd_frame` (segment of 21 bytes) and `zero_ihl_frame` (`ihl = 0`) is answered
with `XDP_TX`, and the checksum over the pseudo-header and the whole emitted
segment leaves a residual other than `0xFFFF`: `0x1234`, the last word of the
payload, for the first and `0x7F00`, the last byte of the payload, for the
second.  The first two frames arrive with a TCP checksum that verifies. -/
theorem tcp_checksum_whole_segment_fails :
    (inet_residual (tcp_checked_bytes long_frame (tcp_seg_len long_frame)
        (tcp_seg_len long_frame)) = 0xFFFF ∧
      (xdp_load_balancer sample_hash false empty_directory long_frame).map
        (fun r => (r.1, tcp_seg_len r.2,
          inet_residual (tcp_checked_bytes r.2 (tcp_seg_len r.2) (tcp_seg_len r.2))))
        = some (XDP_TX, 1504, 0x1234)) ∧
    (inet_residual (tcp_checked_bytes odd_frame (tcp_seg_len odd_frame)
        (tcp_seg_len odd_frame)) = 0xFFFF ∧
      (xdp_load_balancer sample_hash false empty_directory odd_frame).map
        (fun r => (r.1, tcp_seg_len r.2,
          inet_residual (tcp_checked_bytes r.2 (tcp_seg_len r.2) (tcp_seg_len r.2))))
        = some (XDP_TX, 21, 0x7F00)) ∧
    (xdp_load_balancer sample_hash false sample_directory zero_ihl_frame).map
        (fun r => (r.1, tcp_seg_len r.2,
          decide (inet_residual (tcp_checked_bytes r.2 (tcp_seg_len r.2) (tcp_seg_len r.2))
            = 0xFFFF)))
        = some (XDP_TX, 22, false) := by
  refine ⟨⟨by decide!, ?_⟩, by decide!, by decide!⟩
  rw [xdp_load_balancer_eq]
  decide!


/-! ## Flow hashing -/

theorem ntohs_host_value (be : Bool) (a b : Byte) :
    bpf_ntohs be (host_value be [a, b]) = host_value true [a, b] := by
  cases be
  · simp [bpf_ntohs, bswap16, host_value, le_value]
    omega
  · simp [bpf_ntohs, host_value, le_value]
    omega

/-- The bytes of the local `four_tuple` for a frame that passes the header
walk. -/
theorem four_tuple_eq (be : Bool) {buf : List Byte} (hw : passes_walk buf) :
    four_tuple be (host_value be (slice buf 26 4)) (host_value be (slice buf 30 4))
        (host_value be (slice buf (tcp_off buf) 2)) (host_value be (slice buf (tcp_off buf + 2) 2))
      = host_tuple be buf := by
  have h34 := walk_length hw
  have ht : tcp_off buf + 20 ≤ buf.length := hw.2.2.2
  have e1 := host_bytes_host_value be (slice buf 26 4)
  rw [length_slice (by omega)] at e1
  have e2 := host_bytes_host_value be (slice buf 30 4)
  rw [length_slice (by omega)] at e2
  unfold four_tuple host_tuple wire_port
  rw [e1, e2, slice_two (by omega), slice_two (by omega), ntohs_host_value, ntohs_host_value]

theorem flow_slot_eq (xxhash32 : List Byte → Nat → Nat → Nat) (be : Bool) {buf : List Byte}
    (hw : passes_walk buf) :
    flow_slot xxhash32 be buf = xxhash32 (host_tuple be buf) 12 0 % 2 := by
  unfold flow_slot
  rw [four_tuple_eq be hw]

theorem length_host_tuple (be : Bool) {buf : List Byte} (hw : passes_walk buf) :
    (host_tuple be buf).length = 12 := by
  have h34 := walk_length hw
  unfold host_tuple
  simp only [List.length_append, length_host_bytes]
  rw [length_slice (by omega), length_slice (by omega)]

theorem wire_tuple_parts {buf1 buf2 : List Byte} (hw1 : passes_walk buf1)
    (hw2 : passes_walk buf2) (h : wire_tuple buf1 = wire_tuple buf2) :
    slice buf1 26 4 = slice buf2 26 4 ∧ slice buf1 30 4 = slice buf2 30 4 ∧
    slice buf1 (tcp_off buf1) 2 = slice buf2 (tcp_off buf2) 2 ∧
    slice buf1 (tcp_off buf1 + 2) 2 = slice buf2 (tcp_off buf2 + 2) 2 := by
  have h1 := walk_length hw1
  have h2 := walk_length hw2
  have ht1 : tcp_off buf1 + 20 ≤ buf1.length := hw1.2.2.2
  have ht2 : tcp_off buf2 + 20 ≤ buf2.length := hw2.2.2.2
  have la : ∀ (b : List Byte) (o n : Nat), o + n ≤ b.length → (slice b o n).length = n :=
    fun b o n hb => length_slice hb
  unfold wire_tuple at h
  obtain ⟨h3, e4⟩ := List.append_inj h (by
    simp only [List.length_append]
    rw [la _ _ _ (by omega), la _ _ _ (by omega), la _ _ _ (by omega), la _ _ _ (by omega),
      la _ _ _ (by omega), la _ _ _ (by omega)])
  obtain ⟨h4, e3⟩ := List.append_inj h3 (by
    simp only [List.length_append]
    rw [la _ _ _ (by omega), la _ _ _ (by omega), la _ _ _ (by omega), la _ _ _ (by omega)])
  obtain ⟨e1, e2⟩ := List.append_inj h4 (by
    rw [la _ _ _ (by omega), la _ _ _ (by omega)])
  exact ⟨e1, e2, e3, e4⟩

/-- C7, as the code has it: the slot for a client frame is `hash(tuple) mod 2`,
so it is 0 or 1, and two frames that pass the header walk, come from the client
address and have the same four-tuple on the wire get the same slot, whatever
else they contain and whatever `ihl` they declare; under every directory both
are passed on unchanged when the slot is empty and both are answered with
`XDP_TX` when it holds a backend, and each of the two that declares `ihl ≥ 1`
is sent out with the address and MAC of that backend as destination. -/
theorem same_tuple_same_backend (xxhash32 : List Byte → Nat → Nat → Nat) (be : Bool)
    (buf1 buf2 : List Byte) (hw1 : passes_walk buf1) (hw2 : passes_walk buf2)
    (hc1 : load be buf1 26 4 = some (client_ip be))
    (hc2 : load be buf2 26 4 = some (client_ip be))
    (htuple : wire_tuple buf1 = wire_tuple buf2) :
    flow_slot xxhash32 be buf1 = xxhash32 (host_tuple be buf1) 12 0 % 2 ∧
    flow_slot xxhash32 be buf1 < 2 ∧
    flow_slot xxhash32 be buf1 = flow_slot xxhash32 be buf2 ∧
    ∀ backends : Nat → Option backend_config,
      (backends (flow_slot xxhash32 be buf1) = none →
        xdp_load_balancer xxhash32 be backends buf1 = some (XDP_PASS, buf1) ∧
        xdp_load_balancer xxhash32 be backends buf2 = some (XDP_PASS, buf2)) ∧
      ∀ b, backends (flow_slot xxhash32 be buf1) = some b →
        ∃ out1 out2,
          xdp_load_balancer xxhash32 be backends buf1 = some (XDP_TX, out1) ∧
          xdp_load_balancer xxhash32 be backends buf2 = some (XDP_TX, out2) ∧
          (1 ≤ ip_ihl buf1 →
            load be out1 30 4 = some b.ip ∧ mem_read out1 0 6 = some b.mac) ∧
          (1 ≤ ip_ihl buf2 →
            load be out2 30 4 = some b.ip ∧ mem_read out2 0 6 = some b.mac) := by
  obtain ⟨hsrc, hdst, hsp, hdp⟩ := wire_tuple_parts hw1 hw2 htuple
  have hslot : flow_slot xxhash32 be buf1 = flow_slot xxhash32 be buf2 := by
    unfold flow_slot
    rw [hsrc, hdst, hsp, hdp]
  have h1 := walk_length hw1
  have h2 := walk_length hw2
  have ht1 : tcp_off buf1 + 20 ≤ buf1.length := hw1.2.2.2
  have ht2 : tcp_off buf2 + 20 ≤ buf2.length := hw2.2.2.2
  refine ⟨flow_slot_eq xxhash32 be hw1, Nat.mod_lt _ (by decide), hslot,
    fun backends => ⟨fun hb => ⟨?_, ?_⟩, fun b hb => ?_⟩⟩
  · exact miss_passes_aux xxhash32 be backends hw1 hc1 hb
  · exact miss_passes_aux xxhash32 be backends hw2 hc2 (hslot ▸ hb)
  · have hb2 : backends (flow_slot xxhash32 be buf2) = some b := hslot ▸ hb
    have l1 := length_dest_rewritten be buf1 b.ip h1 b.mac_len
    have l2 := length_dest_rewritten be buf2 b.ip h2 b.mac_len
    have n1 := length_tx_result be (dest_rewritten be buf1 b.ip b.mac) (tcp_off buf1)
      (by omega) (by omega)
    have n2 := length_tx_result be (dest_rewritten be buf2 b.ip b.mac) (tcp_off buf2)
      (by omega) (by omega)
    refine ⟨tx_result be (dest_rewritten be buf1 b.ip b.mac) (tcp_off buf1),
      tx_result be (dest_rewritten be buf2 b.ip b.mac) (tcp_off buf2), ?_, ?_, ?_, ?_⟩
    · rw [xdp_of_walk xxhash32 be backends hw1, if_pos ((load_src_iff h1 _).1 hc1), hb]
    · rw [xdp_of_walk xxhash32 be backends hw2, if_pos ((load_src_iff h2 _).1 hc2), hb2]
    · intro hi1
      have k1 : 18 ≤ tcp_off buf1 := by unfold tcp_off; omega
      obtain ⟨f1, _, _, f4⟩ := tx_result_fields be b.ip h1 ht1 b.mac_len k1
      exact ⟨by rw [load_eq (by omega), f4, host_value_host_bytes4 be b.ip_lt],
        by rw [mem_read_eq (by omega), f1]⟩
    · intro hi2
      have k2 : 18 ≤ tcp_off buf2 := by unfold tcp_off; omega
      obtain ⟨g1, _, _, g4⟩ := tx_result_fields be b.ip h2 ht2 b.mac_len k2
      exact ⟨by rw [load_eq (by omega), g4, host_value_host_bytes4 be b.ip_lt],
        by rw [mem_read_eq (by omega), g1]⟩


theorem same_tuple_same_backend_witness :
    (passes_walk client_frame ∧ passes_walk client_frame2 ∧
      load false client_frame 26 4 = some (client_ip false) ∧
      load false client_frame2 26 4 = some (client_ip false) ∧
      wire_tuple client_frame = wire_tuple client_frame2 ∧
      1 ≤ ip_ihl client_frame ∧ 1 ≤ ip_ihl client_frame2) ∧
    flow_slot probe_hash false client_frame < 2 ∧
    flow_slot probe_hash false client_frame = flow_slot probe_hash false client_frame2 ∧
    ∃ out1 out2,
      xdp_load_balancer probe_hash false sample_directory client_frame = some (XDP_TX, out1) ∧
      xdp_load_balancer probe_hash false sample_directory client_frame2 = some (XDP_TX, out2) ∧
      (1 ≤ ip_ihl client_frame →
        load false out1 30 4 = some sample_backend.ip ∧
        mem_read out1 0 6 = some sample_backend.mac) ∧
      (1 ≤ ip_ihl client_frame2 →
        load false out2 30 4 = some sample_backend.ip ∧
        mem_read out2 0 6 = some sample_backend.mac) :=
  ⟨⟨by decide, by decide, by decide, by decide, by decide, by decide, by decide⟩,
    (same_tuple_same_backend probe_hash false client_frame client_frame2 (by decide) (by decide)
      (by decide) (by decide) (by decide)).2.1,
    (same_tuple_same_backend probe_hash false client_frame client_frame2 (by decide) (by decide)
      (by decide) (by decide) (by decide)).2.2.1,
    ((same_tuple_same_backend probe_hash false client_frame client_frame2 (by decide) (by decide)
      (by decide) (by decide) (by decide)).2.2.2 sample_directory).2
      sample_backend rfl⟩

/-- C7 as stated fails: `zero_ihl_frame` and `zero_ihl_frame2` pass the header
walk, come from the client address and have the same four-tuple, both are
answered with `XDP_TX` under the same directory, and the destination addresses
of the two emitted frames differ from each other and from the backend's: with
`ihl = 0` the TCP checksum is stored over the first half of the destination
address. -/
theorem same_tuple_other_destination :
    passes_walk zero_ihl_frame ∧ passes_walk zero_ihl_frame2 ∧
    load false zero_ihl_frame 26 4 = some (client_ip false) ∧
    load false zero_ihl_frame2 26 4 = some (client_ip false) ∧
    wire_tuple zero_ihl_frame = wire_tuple zero_ihl_frame2 ∧
    sample_backend.ip = 0x1400000A ∧
    (xdp_load_balancer sample_hash false sample_directory zero_ihl_frame).map
      (fun r => (r.1, load false r.2 30 4)) = some (XDP_TX, some 0x1400C4FE) ∧
    (xdp_load_balancer sample_hash false sample_directory zero_ihl_frame2).map
      (fun r => (r.1, load false r.2 30 4)) = some (XDP_TX, some 0x1400C3FD) := by
  decide!

/-- C8, as the code has it: for a client frame that passes the header walk the
hash is called on 12 bytes with length 12 and seed 0, and the 12 bytes are the
source and destination address as on the wire followed by the source and
destination port, each port number stored in the byte order of the target
(`bpf_ntohs`).  On a big-endian target this is the tuple as on the wire.
The program uses the hash for nothing else: it looks up the slot
`hash(bytes, 12, 0) mod 2`. -/
theorem hash_input_is_host_tuple (be : Bool) (buf : List Byte) (hw : passes_walk buf)
    (hsrc : load be buf 26 4 = some (client_ip be)) :
    (host_tuple be buf).length = 12 ∧
    (be = true → host_tuple be buf = wire_tuple buf) ∧
    ∀ (xxhash32 : List Byte → Nat → Nat → Nat) (backends : Nat → Option backend_config),
      xdp_load_balancer xxhash32 be backends buf
        = xdp_load_balancer (fun _ _ _ => xxhash32 (host_tuple be buf) 12 0) be backends buf ∧
      (backends (xxhash32 (host_tuple be buf) 12 0 % 2) = none →
        xdp_load_balancer xxhash32 be backends buf = some (XDP_PASS, buf)) ∧
      (∀ b, backends (xxhash32 (host_tuple be buf) 12 0 % 2) = some b →
        ∃ out, xdp_load_balancer xxhash32 be backends buf = some (XDP_TX, out)) := by
  have h34 := walk_length hw
  have ht : tcp_off buf + 20 ≤ buf.length := hw.2.2.2
  have hc := (load_src_iff h34 _).1 hsrc
  refine ⟨length_host_tuple be hw, ?_, fun xxhash32 backends => ⟨?_, ?_, ?_⟩⟩
  · intro hbe
    subst hbe
    unfold host_tuple wire_tuple wire_port
    have e1 := host_bytes_host_value true (slice buf (tcp_off buf) 2)
    rw [length_slice (by omega)] at e1
    have e2 := host_bytes_host_value true (slice buf (tcp_off buf + 2) 2)
    rw [length_slice (by omega)] at e2
    rw [e1, e2]
  · rw [xdp_of_walk xxhash32 be backends hw, xdp_of_walk _ be backends hw,
      flow_slot_eq xxhash32 be hw]
    rfl
  · intro hb
    rw [xdp_of_walk xxhash32 be backends hw, if_pos hc, flow_slot_eq xxhash32 be hw, hb]
  · intro b hb
    rw [xdp_of_walk xxhash32 be backends hw, if_pos hc, flow_slot_eq xxhash32 be hw, hb]
    exact ⟨_, rfl⟩

theorem hash_input_is_host_tuple_witness :
    (passes_walk client_frame ∧ load false client_frame 26 4 = some (client_ip false)) ∧
    (host_tuple false client_frame).length = 12 ∧
    xdp_load_balancer probe_hash false slot1_directory client_frame
      = xdp_load_balancer (fun _ _ _ => probe_hash (host_tuple false client_frame) 12 0) false
          slot1_directory client_frame :=
  ⟨⟨by decide, by decide⟩,
    (hash_input_is_host_tuple false client_frame (by decide) (by decide)).1,
    ((hash_input_is_host_tuple false client_frame (by decide) (by decide)).2.2
      probe_hash slot1_directory).1⟩

/-- C8 as stated fails on a little-endian target: for `client_frame`, whose
ports are `c7 38` and `00 50` on the wire, the program hands the hash the ports
as `38 c7` and `50 00`.  With a hash that returns the ninth byte of its input
and a directory that has only slot 1, the program looks up slot 0 and passes
the frame on, although the tuple as on the wire hashes to slot 1. -/
theorem hash_input_not_wire_order :
    passes_walk client_frame ∧ load false client_frame 26 4 = some (client_ip false) ∧
    wire_tuple client_frame = [10, 0, 0, 1, 10, 0, 0, 10, 0xC7, 0x38, 0x00, 0x50] ∧
    ((load false client_frame 26 4).bind fun saddr =>
      (load false client_frame 30 4).bind fun daddr =>
      (load false client_frame 34 2).bind fun source =>
      (load false client_frame 36 2).bind fun dest =>
        some (four_tuple false saddr daddr source dest))
      = some [10, 0, 0, 1, 10, 0, 0, 10, 0x38, 0xC7, 0x50, 0x00] ∧
    slot1_directory (probe_hash (wire_tuple client_frame) 12 0 % 2) = some sample_backend ∧
    xdp_load_balancer probe_hash false slot1_directory client_frame
      = some (XDP_PASS, client_frame) := by
  refine ⟨by decide, by decide, by decide, by decide, rfl, by decide!⟩

/-! ## The header walk and the frame of the rewrite -/

/-- C9, as the code has it: the header walk does not validate `ihl`.  A frame
is answered with `XDP_TX` exactly when it has 14 bytes, ethertype `0x0800`,
protocol TCP and 20 bytes inside the buffer at offset `14 + ihl*4`, for
whatever `ihl` it declares, and it is not a client frame whose slot is empty. -/
theorem redirect_iff_walk_checks (xxhash32 : List Byte → Nat → Nat → Nat) (be : Bool)
    (backends : Nat → Option backend_config) (buf : List Byte) :
    (∃ out, xdp_load_balancer xxhash32 be backends buf = some (XDP_TX, out)) ↔
      (14 ≤ buf.length ∧ eth_proto buf = 0x0800 ∧ ip_protocol buf = 6 ∧
        14 + ip_ihl buf * 4 + 20 ≤ buf.length) ∧
      (load be buf 26 4 = some (client_ip be) →
        backends (flow_slot xxhash32 be buf) ≠ none) := by
  constructor
  · rintro ⟨out, h⟩
    obtain ⟨hw, _⟩ := xdp_tx_inv h
    refine ⟨hw, fun hsrc hb => ?_⟩
    rw [miss_passes_aux xxhash32 be backends hw hsrc hb] at h
    simp [XDP_PASS, XDP_TX] at h
  · rintro ⟨hw, hdir⟩
    have hw2 : passes_walk buf := hw
    rw [xdp_of_walk xxhash32 be backends hw2]
    by_cases hc : host_value be (slice buf 26 4) = client_ip be
    · rw [if_pos hc]
      have hsrc := (load_src_iff (walk_length hw2) _).2 hc
      cases hb : backends (flow_slot xxhash32 be buf) with
      | none => exact absurd hb (hdir hsrc)
      | some b => exact ⟨_, rfl⟩
    · rw [if_neg hc]
      exact ⟨_, rfl⟩

theorem redirect_iff_walk_checks_witness :
    (14 ≤ zero_ihl_frame.length ∧ eth_proto zero_ihl_frame = 0x0800 ∧
      ip_protocol zero_ihl_frame = 6 ∧ ip_ihl zero_ihl_frame = 0 ∧
      14 + ip_ihl zero_ihl_frame * 4 + 20 ≤ zero_ihl_frame.length) ∧
    ∃ out, xdp_load_balancer sample_hash false sample_directory zero_ihl_frame
      = some (XDP_TX, out) :=
  ⟨⟨by decide, by decide, by decide, by decide, by decide⟩,
    (redirect_iff_walk_checks sample_hash false sample_directory zero_ihl_frame).2
      ⟨⟨by decide, by decide, by decide, by decide⟩, fun _ => by simp [sample_directory]⟩⟩

/-- C9 as stated fails: `zero_ihl_frame` has ethertype IPv4 and declares
`ihl = 0`, and the program answers `XDP_TX` with a rewritten buffer. -/
theorem zero_ihl_frame_is_rewritten :
    eth_proto zero_ihl_frame = 0x0800 ∧ ip_ihl zero_ihl_frame = 0 ∧
    xdp_load_balancer sample_hash false sample_directory zero_ihl_frame =
      some (XDP_TX, [2, 0, 0, 0, 0, 20, 222, 173, 190, 239, 0, 16, 8, 0, 64, 0, 0, 22, 0, 0,
        0, 0, 64, 6, 107, 197, 10, 0, 0, 10, 254, 196, 0, 20, 1, 1]) := by
  decide!

/-- C10: when the program answers `XDP_TX` for a frame with `ihl ≥ 5`, the emitted
buffer has the length of the input and agrees with it at every offset outside
0-11 (the MAC addresses), 24-25 (IPv4 checksum), 26-33 (IPv4 addresses) and the
two bytes of the TCP checksum at `14 + ihl*4 + 16`. -/
theorem rewrite_touches_only_addresses_and_checksums (xxhash32 : List Byte → Nat → Nat → Nat)
    (be : Bool) (backends : Nat → Option backend_config) (buf out : List Byte)
    (h : xdp_load_balancer xxhash32 be backends buf = some (XDP_TX, out))
    (_hihl : 5 ≤ ip_ihl buf) :
    out.length = buf.length ∧
    ∀ j, 12 ≤ j → ¬ (24 ≤ j ∧ j < 34) →
      j ≠ 14 + ip_ihl buf * 4 + 16 → j ≠ 14 + ip_ihl buf * 4 + 17 → out[j]? = buf[j]? := by
  obtain ⟨hw, dip, dmac, hm, hout⟩ := xdp_tx_inv h
  have h34 := walk_length hw
  have ht : tcp_off buf + 20 ≤ buf.length := hw.2.2.2
  have hl := length_dest_rewritten be buf dip h34 hm
  have hlen := length_tx_result be (dest_rewritten be buf dip dmac) (tcp_off buf)
    (by omega) (by omega)
  rw [hout]
  refine ⟨by omega, fun j h12 hip hc1 hc2 => ?_⟩
  have hT : tcp_off buf = 14 + ip_ihl buf * 4 := rfl
  exact getElem?_tx_unchanged be dip h34 ht hm j h12 hip (by omega)

theorem rewrite_touches_only_addresses_and_checksums_witness :
    (xdp_load_balancer sample_hash false sample_directory client_frame2 =
        some (XDP_TX, tx_result false
          (dest_rewritten false client_frame2 sample_backend.ip sample_backend.mac) 38) ∧
      5 ≤ ip_ihl client_frame2) ∧
    (tx_result false (dest_rewritten false client_frame2 sample_backend.ip sample_backend.mac)
      38).length = client_frame2.length ∧
    (tx_result false (dest_rewritten false client_frame2 sample_backend.ip sample_backend.mac)
      38)[60]? = client_frame2[60]? :=
  ⟨⟨by decide!, by decide⟩,
    (rewrite_touches_only_addresses_and_checksums sample_hash false sample_directory
      client_frame2 _ (by decide!) (by decide)).1,
    (rewrite_touches_only_addresses_and_checksums sample_hash false sample_directory
      client_frame2 _ (by decide!) (by decide)).2 60 (by decide) (by decide) (by decide)
      (by decide)⟩


/-! ## The folding loop of `csum_fold_helper` -/

/-- One iteration of the loop of `csum_fold_helper` on a 64-bit value adds
the high part to the low 16 bits. -/
theorem csum_fold_step (c : Nat) (h : c < 18446744073709551616) :
    (if c >>> 16 ≠ 0 then ((c &&& 0xffff) + (c >>> 16)) % 2 ^ 64 else c)
      = c % 65536 + c / 65536 := by
  rw [shiftRight_16, and_ffff]
  by_cases hc : c / 65536 ≠ 0
  · rw [if_pos hc]
    norm_num
    omega
  · rw [if_neg hc]
    omega

theorem csum_fold_loop_succ (n c : Nat) (h : c < 18446744073709551616) :
    csum_fold_loop (n + 1) c = csum_fold_loop n (c % 65536 + c / 65536) := by
  rw [csum_fold_loop, csum_fold_step c h]

/-- The four iterations of `csum_fold_helper` fold every 64-bit value to 16
bits, keep its residue modulo `0xFFFF` and give zero for zero only. -/
theorem csum_fold_loop_spec (c : Nat) (h : c < 18446744073709551616) :
    csum_fold_loop 4 c < 65536 ∧ csum_fold_loop 4 c % 65535 = c % 65535 ∧
      (csum_fold_loop 4 c = 0 ↔ c = 0) := by
  obtain ⟨c1, h1⟩ : ∃ c1, c1 = c % 65536 + c / 65536 := ⟨_, rfl⟩
  obtain ⟨c2, h2⟩ : ∃ c2, c2 = c1 % 65536 + c1 / 65536 := ⟨_, rfl⟩
  obtain ⟨c3, h3⟩ : ∃ c3, c3 = c2 % 65536 + c2 / 65536 := ⟨_, rfl⟩
  obtain ⟨c4, h4⟩ : ∃ c4, c4 = c3 % 65536 + c3 / 65536 := ⟨_, rfl⟩
  have b1 : c1 ≤ 281474976776190 := by omega
  have b2 : c2 ≤ 4295032830 := by omega
  have b3 : c3 ≤ 131070 := by omega
  have b4 : c4 ≤ 65535 := by omega
  have e : csum_fold_loop 4 c = c4 := by
    rw [csum_fold_loop_succ 3 c h, ← h1, csum_fold_loop_succ 2 c1 (by omega), ← h2,
      csum_fold_loop_succ 1 c2 (by omega), ← h3, csum_fold_loop_succ 0 c3 (by omega), ← h4]
    rfl
  rw [e]
  refine ⟨by omega, by omega, by omega⟩

theorem csum_fold_helper_eq (c : Nat) (h : c < 18446744073709551616) :
    csum_fold_helper c = 65535 - csum_fold_loop 4 c := by
  obtain ⟨h1, _, _⟩ := csum_fold_loop_spec c h
  unfold csum_fold_helper
  norm_num
  omega

/-- The value of `csum_fold_helper` depends on its 64-bit argument only
through the residue modulo `0xFFFF` and through whether it is zero, so every
partial checksum with these two properties gives the same header checksum. -/
theorem csum_fold_helper_congr (c d : Nat) (hc : c < 18446744073709551616)
    (hd : d < 18446744073709551616) (hm : c % 65535 = d % 65535) (hz : c = 0 ↔ d = 0) :
    csum_fold_helper c = csum_fold_helper d := by
  obtain ⟨c1, c2, c3⟩ := csum_fold_loop_spec c hc
  obtain ⟨d1, d2, d3⟩ := csum_fold_loop_spec d hd
  rw [csum_fold_helper_eq c hc, csum_fold_helper_eq d hd]
  omega


/-! ## The IPv4 checksum of the transmitted packet -/

/-- Word sum, in the byte order of the target, of the 20 bytes that `iph_csum`
covers in the packet after line 153: a positive multiple of `0xFFFF`. -/
theorem ip_host_sum (be : Bool) (buf : List Byte) (h : 34 ≤ buf.length) :
    0 < (words16 be (slice (ip_done be buf) 14 20)).sum ∧
    (words16 be (slice (ip_done be buf) 14 20)).sum % 65535 = 0 := by
  have hck : ip_check be buf
      = csum_fold_helper (0 + (words16 be (slice (ip_cleared be buf) 14 20)).sum) := rfl
  have h1 : (splice buf 26 (host_bytes be 4 (load_balancer_ip be))).length = buf.length :=
    length_splice (by rw [length_host_bytes]; omega)
  have h2 : (splice (splice buf 26 (host_bytes be 4 (load_balancer_ip be))) 6
      load_balancer_mac).length = buf.length := by
    rw [length_splice (by rw [h1]; simp [load_balancer_mac]; omega), h1]
  have hXY : ip_cleared be buf = splice (splice (splice buf 26
      (host_bytes be 4 (load_balancer_ip be))) 6 load_balancer_mac) 24 (host_bytes be 2 0) := rfl
  have hlz : 24 + (host_bytes be 2 0).length ≤ (splice (splice buf 26
      (host_bytes be 4 (load_balancer_ip be))) 6 load_balancer_mac).length := by
    rw [length_host_bytes]; omega
  have hlc : 24 + (host_bytes be 2 (ip_check be buf)).length ≤ (splice (splice buf 26
      (host_bytes be 4 (load_balancer_ip be))) 6 load_balancer_mac).length := by
    rw [length_host_bytes]; omega
  have hOY : ip_done be buf = splice (splice (splice buf 26
      (host_bytes be 4 (load_balancer_ip be))) 6 load_balancer_mac) 24
        (host_bytes be 2 (ip_check be buf)) := by
    unfold ip_done
    rw [hXY]
    exact splice_splice hlz (by rw [length_host_bytes, length_host_bytes])
  generalize ip_check be buf = ck at hck hlc hOY
  generalize splice (splice buf 26 (host_bytes be 4 (load_balancer_ip be))) 6
    load_balancer_mac = Y at h2 hXY hlz hlc hOY
  have e20 : (20 : Nat) = 10 + (2 + 8) := rfl
  have s1 : slice (ip_done be buf) 14 20 =
      slice Y 14 10 ++ (host_bytes be 2 ck ++ slice Y (24 + 2) 8) := by
    have hs := slice_splice_mid hlc 14 10 8 rfl
    rw [length_host_bytes] at hs
    rw [hOY, e20]
    exact hs
  have s2 : slice (ip_cleared be buf) 14 20 =
      slice Y 14 10 ++ (host_bytes be 2 0 ++ slice Y (24 + 2) 8) := by
    have hs := slice_splice_mid hlz 14 10 8 rfl
    rw [length_host_bytes] at hs
    rw [hXY, e20]
    exact hs
  have lA : (slice Y 14 10).length = 10 := length_slice (by omega)
  have lR : (slice Y (24 + 2) 8).length = 8 := length_slice (by omega)
  rw [s2, words16_append be (slice Y 14 10) _ (by rw [lA]),
    words16_append be (host_bytes be 2 0) _ (by rw [length_host_bytes]),
    words16_host_bytes2] at hck
  rw [s1, words16_append be (slice Y 14 10) _ (by rw [lA]),
    words16_append be (host_bytes be 2 ck) _ (by rw [length_host_bytes]),
    words16_host_bytes2]
  simp only [List.sum_append, List.sum_cons, List.sum_nil, Nat.zero_mod, Nat.add_zero,
    Nat.zero_add] at hck ⊢
  have bA := sum_words16_le be (slice Y 14 10)
  rw [lA] at bA
  have bR := sum_words16_le be (slice Y (24 + 2) 8)
  rw [lR] at bR
  generalize (words16 be (slice Y 14 10)).sum = A at hck bA ⊢
  generalize (words16 be (slice Y (24 + 2) 8)).sum = R at hck bR ⊢
  have hlt : A + R < 18446744073709551616 := by omega
  obtain ⟨f1, f2, f3⟩ := csum_fold_loop_spec (A + R) hlt
  rw [csum_fold_helper_eq (A + R) hlt] at hck
  generalize csum_fold_loop 4 (A + R) = r at f1 f2 f3 hck
  constructor <;> omega

/-- The 20 bytes of the fixed IPv4 header are final once line 153 has run, when
the TCP checksum field lies behind them. -/
theorem slice_tx_result_ip (be : Bool) (buf : List Byte) (tcph : Nat) (h : 34 ≤ buf.length)
    (ht : tcph + 20 ≤ buf.length) (h18 : 18 ≤ tcph) :
    slice (tx_result be buf tcph) 14 20 = slice (ip_done be buf) 14 20 := by
  have hY := length_ip_done be h
  have hX := length_tcp_cleared be h ht
  unfold tx_result
  rw [slice_splice_disjoint (by rw [hX, length_host_bytes]; omega) (Or.inl (by omega))]
  unfold tcp_cleared
  rw [slice_splice_disjoint (by rw [hY, length_host_bytes]; omega) (Or.inl (by omega))]


/-! ## The number of words the summation loop adds -/

theorem tcph_csum_loop_words_eq (be : Bool) (buf : List Byte) (tcph : Nat) (n : Nat) :
    ∀ (i cnt : Nat),
      tcph_csum_loop_words be buf tcph buf.length n i cnt =
        some (cnt + min n ((buf.length - (tcph + 2 * i)) / 2)) := by
  induction n with
  | zero =>
    intro i cnt
    simp [tcph_csum_loop_words]
  | succ n ih =>
    intro i cnt
    unfold tcph_csum_loop_words
    by_cases hb : tcph + 2 * i + 2 > buf.length
    · simp only [hb, if_true]
      congr 1; omega
    · simp only [hb, if_false]
      rw [load_eq (by omega), Option.some_bind, ih (i + 1) (cnt + 1)]
      congr 1; omega

/-- The accumulator that the loop returns is the one it was given plus the
words it counted. -/
theorem tcph_csum_loop_counted (be : Bool) (buf : List Byte) (tcph n i sum : Nat)
    (hs : sum < 2 ^ 32) :
    tcph_csum_loop be buf tcph buf.length n i sum =
      (tcph_csum_loop_words be buf tcph buf.length n i 0).map fun k =>
        (sum + (words16 be (slice buf (tcph + 2 * i) (2 * k))).sum) % 2 ^ 32 := by
  rw [tcph_csum_loop_eq be buf tcph n i sum hs, tcph_csum_loop_words_eq, Nat.zero_add]
  rfl

/-- The summation loop never leaves the buffer, wherever it starts and however
many iterations it is given. -/
theorem tcph_csum_loop_total (be : Bool) (buf : List Byte) (tcph : Nat) (n : Nat) :
    ∀ (i sum : Nat), ∃ s, tcph_csum_loop be buf tcph buf.length n i sum = some s := by
  induction n with
  | zero =>
    intro i sum
    exact ⟨sum, rfl⟩
  | succ n ih =>
    intro i sum
    unfold tcph_csum_loop
    by_cases hb : tcph + 2 * i + 2 > buf.length
    · exact ⟨sum, by simp only [hb, if_true]⟩
    · simp only [hb, if_false]
      rw [load_eq (by omega), Option.some_bind]
      exact ih _ _


/-! ## Checksums without options, the word cap, memory safety and the fold -/

/-- C11: when the program answers `XDP_TX` for a frame with `ihl = 5`, the
emitted IPv4 header is 20 bytes long and verifies: the one's-complement sum of
its ten 16-bit words, stored checksum included, folds to `0xFFFF`. -/
theorem ip_checksum_verifies_without_options (xxhash32 : List Byte → Nat → Nat → Nat)
    (be : Bool) (backends : Nat → Option backend_config) (buf out : List Byte)
    (h : xdp_load_balancer xxhash32 be backends buf = some (XDP_TX, out))
    (hihl : ip_ihl buf = 5) :
    (ip_header out).length = 20 ∧ inet_residual (ip_header out) = 0xFFFF := by
  obtain ⟨hw, dip, dmac, hm, hout⟩ := xdp_tx_inv h
  rw [hout]
  have h34 := walk_length hw
  have ht : tcp_off buf + 20 ≤ buf.length := hw.2.2.2
  have hT : tcp_off buf = 14 + ip_ihl buf * 4 := rfl
  have hl := length_dest_rewritten be buf dip h34 hm
  have hlen := length_tx_result be (dest_rewritten be buf dip dmac) (tcp_off buf)
    (by omega) (by omega)
  have hoff := tx_ihl_eq be dip h34 ht hm
  have hT2 : tcp_off (tx_result be (dest_rewritten be buf dip dmac) (tcp_off buf))
      = 14 + ip_ihl (tx_result be (dest_rewritten be buf dip dmac) (tcp_off buf)) * 4 := rfl
  have hi : ip_ihl (tx_result be (dest_rewritten be buf dip dmac) (tcp_off buf)) * 4 = 20 := by
    omega
  have hs := slice_tx_result_ip be (dest_rewritten be buf dip dmac) (tcp_off buf)
    (by omega) (by omega) (by omega)
  obtain ⟨p1, p2⟩ := ip_host_sum be (dest_rewritten be buf dip dmac) (by omega)
  unfold ip_header
  rw [hi, hs]
  exact ⟨length_slice (by rw [length_ip_done be (by omega)]; omega),
    inet_residual_of_host_sum be _ p1 p2⟩

theorem ip_checksum_verifies_without_options_witness :
    (xdp_load_balancer sample_hash false sample_directory client_frame = some (XDP_TX,
        tx_result false (dest_rewritten false client_frame sample_backend.ip sample_backend.mac)
          34) ∧
      ip_ihl client_frame = 5) ∧
    (ip_header (tx_result false
      (dest_rewritten false client_frame sample_backend.ip sample_backend.mac) 34)).length = 20 ∧
    inet_residual (ip_header (tx_result false
      (dest_rewritten false client_frame sample_backend.ip sample_backend.mac) 34)) = 0xFFFF :=
  ⟨⟨by decide!, by decide⟩,
    ip_checksum_verifies_without_options sample_hash false sample_directory client_frame
      (tx_result false (dest_rewritten false client_frame sample_backend.ip sample_backend.mac)
        34)
      (by decide!) (by decide)⟩

/-- C12: when the program answers `XDP_TX` for a frame with `ihl ≥ 5` whose TCP
segment has an even length `L ≤ 1502`, the stored TCP checksum verifies: the
one's-complement sum of the pseudo-header (emitted source and destination
address, zero, protocol 6, length `L`) and of all `L/2` words of the emitted
segment folds to `0xFFFF`. -/
theorem tcp_checksum_verifies_whole_segment (xxhash32 : List Byte → Nat → Nat → Nat)
    (be : Bool) (backends : Nat → Option backend_config) (buf out : List Byte)
    (h : xdp_load_balancer xxhash32 be backends buf = some (XDP_TX, out))
    (hihl : 5 ≤ ip_ihl buf) (heven : tcp_seg_len buf % 2 = 0) (hL : tcp_seg_len buf ≤ 1502) :
    inet_residual (tcp_checked_bytes out (tcp_seg_len out) (tcp_seg_len out)) = 0xFFFF := by
  obtain ⟨hw, dip, dmac, hm, hout⟩ := xdp_tx_inv h
  rw [hout]
  have h34 := walk_length hw
  have ht : tcp_off buf + 20 ≤ buf.length := hw.2.2.2
  have h18 : 18 ≤ tcp_off buf := by unfold tcp_off; omega
  have hl := length_dest_rewritten be buf dip h34 hm
  have hlen := length_tx_result be (dest_rewritten be buf dip dmac) (tcp_off buf)
    (by omega) (by omega)
  have hoff := tx_ihl_eq be dip h34 ht hm
  obtain ⟨p1, p2⟩ := tcp_host_sum be (dest_rewritten be buf dip dmac)
    (tcp_off buf) (by omega) (by omega) h18
  have hs : 2 * summed_words (dest_rewritten be buf dip dmac).length (tcp_off buf)
      = (dest_rewritten be buf dip dmac).length - tcp_off buf := by
    unfold tcp_seg_len at heven hL
    unfold summed_words MAX_TCP_CHECK_WORDS
    omega
  rw [hs] at p1 p2
  apply inet_residual_of_host_sum be
  · unfold tcp_checked_bytes tcp_seg_len
    rw [hoff, hlen]
    exact p1
  · unfold tcp_checked_bytes tcp_seg_len
    rw [hoff, hlen]
    exact p2

theorem tcp_checksum_verifies_whole_segment_witness :
    (xdp_load_balancer sample_hash false empty_directory backend_frame = some (XDP_TX,
        tx_result false (dest_rewritten false backend_frame (client_ip false) client_mac) 34) ∧
      5 ≤ ip_ihl backend_frame ∧ tcp_seg_len backend_frame % 2 = 0 ∧
      tcp_seg_len backend_frame ≤ 1502) ∧
    inet_residual (tcp_checked_bytes
      (tx_result false (dest_rewritten false backend_frame (client_ip false) client_mac) 34)
      (tcp_seg_len
        (tx_result false (dest_rewritten false backend_frame (client_ip false) client_mac) 34))
      (tcp_seg_len
        (tx_result false (dest_rewritten false backend_frame (client_ip false) client_mac) 34)))
      = 0xFFFF :=
  ⟨⟨by decide!, by decide, by decide, by decide⟩,
    tcp_checksum_verifies_whole_segment sample_hash false empty_directory backend_frame
      (tx_result false (dest_rewritten false backend_frame (client_ip false) client_mac) 34)
      (by decide!) (by decide) (by decide) (by decide)⟩

/-- C13: on `cap_frame`, whose TCP segment has 1504 bytes, the summation loop of
`tcph_csum` adds 751 words, not 750: its result is the sum of the first 750
words of the segment plus the word `ab cd` at segment offset 1500.  The loop
condition is `i <= MAX_TCP_CHECK_WORDS`. -/
theorem summation_loop_adds_751_words :
    tcp_seg_len cap_frame = 1504 ∧
    tcph_csum_loop_words false cap_frame 34 cap_frame.length (MAX_TCP_CHECK_WORDS + 1) 0 0
      = some 751 ∧
    tcph_csum_loop false cap_frame 34 cap_frame.length (MAX_TCP_CHECK_WORDS + 1) 0 0
      = some ((words16 false (slice cap_frame 34 1500)).sum + 0xCDAB) := by
  rw [tcph_csum_loop_words_eq, tcph_csum_loop_eq false cap_frame 34 _ 0 0 (by norm_num)]
  decide!

/-- C14: on every buffer, of any length, and for every hash and directory the
program runs to a verdict without an access outside the buffer: the result is
never `none`, the verdict is `XDP_PASS` or `XDP_TX` and the buffer keeps its
length.  The summation loop of `tcph_csum` stays inside the buffer from every
start offset. -/
theorem xdp_load_balancer_stays_in_bounds (xxhash32 : List Byte → Nat → Nat → Nat)
    (be : Bool) (backends : Nat → Option backend_config) (buf : List Byte) :
    (∃ v out, xdp_load_balancer xxhash32 be backends buf = some (v, out) ∧
      (v = XDP_PASS ∨ v = XDP_TX) ∧ out.length = buf.length) ∧
    ∀ tcph n i sum, ∃ s, tcph_csum_loop be buf tcph buf.length n i sum = some s := by
  refine ⟨?_, fun tcph n i sum => tcph_csum_loop_total be buf tcph n i sum⟩
  rw [xdp_load_balancer_eq]
  by_cases c1 : buf.length < 14
  · rw [if_pos c1]; exact ⟨_, _, rfl, Or.inl rfl, rfl⟩
  rw [if_neg c1]
  by_cases c2 : eth_proto buf ≠ 0x0800
  · rw [if_pos c2]; exact ⟨_, _, rfl, Or.inl rfl, rfl⟩
  rw [if_neg c2]
  by_cases c3 : buf.length < 34
  · rw [if_pos c3]; exact ⟨_, _, rfl, Or.inl rfl, rfl⟩
  rw [if_neg c3]
  by_cases c4 : ip_protocol buf ≠ 6
  · rw [if_pos c4]; exact ⟨_, _, rfl, Or.inl rfl, rfl⟩
  rw [if_neg c4]
  by_cases c5 : buf.length < tcp_off buf + 20
  · rw [if_pos c5]; exact ⟨_, _, rfl, Or.inl rfl, rfl⟩
  rw [if_neg c5]
  by_cases c6 : host_value be (slice buf 26 4) = client_ip be
  · rw [if_pos c6]
    cases hb : backends (flow_slot xxhash32 be buf) with
    | none => exact ⟨_, _, rfl, Or.inl rfl, rfl⟩
    | some b =>
      have hl := length_dest_rewritten be buf b.ip (by omega) b.mac_len
      exact ⟨_, _, rfl, Or.inr rfl, by
        rw [length_tx_result be _ _ (by omega) (by omega), hl]⟩
  · rw [if_neg c6]
    have hl := length_dest_rewritten be buf (client_ip be) (by omega)
      (rfl : client_mac.length = 6)
    exact ⟨_, _, rfl, Or.inr rfl, by
      rw [length_tx_result be _ _ (by omega) (by omega), hl]⟩

/-- C15: for every 64-bit `csum` the four iterations of `csum_fold_helper` leave
a value `r` below `2^16` that is congruent to `csum` modulo `65535` and is zero
only when `csum` is zero, and the function returns `0xFFFF - r`. -/
theorem csum_fold_helper_folds_completely (csum : Nat) (h : csum < 2 ^ 64) :
    csum_fold_loop 4 csum < 2 ^ 16 ∧
    csum_fold_loop 4 csum % 65535 = csum % 65535 ∧
    (csum_fold_loop 4 csum = 0 → csum = 0) ∧
    csum_fold_helper csum = 0xFFFF - csum_fold_loop 4 csum := by
  have h64 : csum < 18446744073709551616 := by norm_num at h; exact h
  obtain ⟨f1, f2, f3⟩ := csum_fold_loop_spec csum h64
  exact ⟨by norm_num; exact f1, f2, f3.1, csum_fold_helper_eq csum h64⟩

theorem csum_fold_helper_folds_completely_witness :
    (0xFFFFFFFFFFFFFFFF : Nat) < 2 ^ 64 ∧
    csum_fold_loop 4 0xFFFFFFFFFFFFFFFF < 2 ^ 16 ∧
    csum_fold_loop 4 0xFFFFFFFFFFFFFFFF % 65535 = 0xFFFFFFFFFFFFFFFF % 65535 ∧
    (csum_fold_loop 4 0xFFFFFFFFFFFFFFFF = 0 → (0xFFFFFFFFFFFFFFFF : Nat) = 0) ∧
    csum_fold_helper 0xFFFFFFFFFFFFFFFF = 0xFFFF - csum_fold_loop 4 0xFFFFFFFFFFFFFFFF :=
  ⟨by decide, csum_fold_helper_folds_completely 0xFFFFFFFFFFFFFFFF (by decide)⟩

end XdpLb
